import Mathlib

/-!
Verification development for the LINE × Notion knowledge-bot repository.

The development shallowly embeds the repository's core pipeline from
`app.py`: text normalization (`_normalize`), Notion property extraction
(`_prop_to_text` and the `_page_*` helpers), serial-key sorting
(`_serial_sort_key`), label grouping and best-label selection
(`list_label_items_by_keyword`), the two-tier full-text search
(`search_notion`), and the grounded-answer assembler
(`gpt_answer_from_kb`).

Python values flowing through these functions are JSON-shaped; they are
modelled by the inductive type `JVal`.  Python code that can raise an
exception (attribute errors on non-dict values, `str.join` over non-string
elements, ...) is modelled in the `Except Unit` monad: `.error ()` marks a
raised exception.  Remote calls (the Notion `/v1/search` endpoint and the
paginated database query issued by `fetch_all_pages`) are modelled by an
environment record holding the data those calls would return, since the
code under verification only consumes their JSON results.
-/

/-- A JSON-shaped Python value: `None`, booleans, numbers, strings,
lists and string-keyed dictionaries. -/
inductive JVal where
  | null
  | bool (b : Bool)
  | num (n : Int)
  | str (s : String)
  | arr (xs : List JVal)
  | obj (kvs : List (String × JVal))

mutual

/-- Structural boolean equality on `JVal` (mirrors Python `==` on
JSON-shaped data). -/
def JVal.beq : JVal → JVal → Bool
  | .null, .null => true
  | .bool a, .bool b => a == b
  | .num a, .num b => a == b
  | .str a, .str b => a == b
  | .arr xs, .arr ys => JVal.beqList xs ys
  | .obj xs, .obj ys => JVal.beqKV xs ys
  | _, _ => false

/-- Elementwise equality of `JVal` lists. -/
def JVal.beqList : List JVal → List JVal → Bool
  | [], [] => true
  | x :: xs, y :: ys => JVal.beq x y && JVal.beqList xs ys
  | _, _ => false

/-- Elementwise equality of key/value lists. -/
def JVal.beqKV : List (String × JVal) → List (String × JVal) → Bool
  | [], [] => true
  | (k, x) :: xs, (l, y) :: ys => k == l && JVal.beq x y && JVal.beqKV xs ys
  | _, _ => false

end

instance : BEq JVal := ⟨JVal.beq⟩

mutual

theorem JVal.beq_iff : ∀ a b : JVal, JVal.beq a b = true ↔ a = b
  | .null, b => by cases b <;> simp [JVal.beq]
  | .bool a, b => by cases b <;> simp [JVal.beq]
  | .num a, b => by cases b <;> simp [JVal.beq]
  | .str a, b => by cases b <;> simp [JVal.beq]
  | .arr xs, b => by
      cases b <;> simp [JVal.beq]
      exact JVal.beqList_iff xs _
  | .obj xs, b => by
      cases b <;> simp [JVal.beq]
      exact JVal.beqKV_iff xs _

theorem JVal.beqList_iff : ∀ xs ys : List JVal, JVal.beqList xs ys = true ↔ xs = ys
  | [], ys => by cases ys <;> simp [JVal.beqList]
  | x :: xs, ys => by
      cases ys with
      | nil => simp [JVal.beqList]
      | cons y ys =>
        simp only [JVal.beqList, Bool.and_eq_true, JVal.beq_iff x y,
          JVal.beqList_iff xs ys, List.cons.injEq]

theorem JVal.beqKV_iff : ∀ xs ys : List (String × JVal), JVal.beqKV xs ys = true ↔ xs = ys
  | [], ys => by cases ys <;> simp [JVal.beqKV]
  | (k, x) :: xs, ys => by
      cases ys with
      | nil => simp [JVal.beqKV]
      | cons p ys =>
        obtain ⟨l, y⟩ := p
        simp [JVal.beqKV, JVal.beq_iff x y, JVal.beqKV_iff xs ys, Prod.ext_iff]

end

instance : DecidableEq JVal := fun a b =>
  decidable_of_iff (JVal.beq a b = true) (JVal.beq_iff a b)

instance : LawfulBEq JVal where
  eq_of_beq h := (JVal.beq_iff _ _).mp h
  rfl := by intro a; exact (JVal.beq_iff a a).mpr rfl

instance {ε α : Type} [DecidableEq ε] [DecidableEq α] : DecidableEq (Except ε α) := fun x y =>
  match x, y with
  | .ok a, .ok b => if h : a = b then .isTrue (by rw [h]) else .isFalse (by simp [h])
  | .error a, .error b => if h : a = b then .isTrue (by rw [h]) else .isFalse (by simp [h])
  | .ok _, .error _ => .isFalse (by simp)
  | .error _, .ok _ => .isFalse (by simp)

/-- Python truthiness of a JSON-shaped value: `None`, `False`, `0`, `""`,
`[]` and `{}` are falsy, everything else truthy. -/
def JVal.truthy : JVal → Bool
  | .null => false
  | .bool b => b
  | .num n => n != 0
  | .str s => s ≠ ""
  | .arr xs => !xs.isEmpty
  | .obj kvs => !kvs.isEmpty

/-- `d.get(k)` on a Python value: returns the stored value (absent keys
give `None`, modelled by `.null`); raises `AttributeError` — modelled by
`.error ()` — when the receiver is not a dict. -/
def JVal.get : JVal → String → Except Unit JVal
  | .obj kvs, k => .ok ((List.lookup k kvs).getD .null)
  | _, _ => .error ()

/-- `d.get(k, default)` on a Python value. -/
def JVal.getD : JVal → String → JVal → Except Unit JVal
  | .obj kvs, k, d => .ok ((List.lookup k kvs).getD d)
  | _, _, _ => .error ()

/-- Code points removed by the source's normalization regex
`[\p{P}\p{Z}\p{C}]+`: Unicode punctuation (P), separators (Z) and
control/format characters (C).  The table below covers the Unicode
blocks this repository's data can contain (ASCII, Latin-1 supplement,
general punctuation, CJK symbols and fullwidth forms); symbol-category
code points such as `$ + < = > ^ | ~` are deliberately not removed,
matching the regex classes. -/
def pzcB (n : Nat) : Bool :=
  decide (n ≤ 0x20) ||
  decide (0x21 ≤ n ∧ n ≤ 0x23) || decide (0x25 ≤ n ∧ n ≤ 0x2A) ||
  decide (0x2C ≤ n ∧ n ≤ 0x2F) ||
  decide (n = 0x3A) || decide (n = 0x3B) || decide (n = 0x3F) || decide (n = 0x40) ||
  decide (0x5B ≤ n ∧ n ≤ 0x5D) || decide (n = 0x5F) || decide (n = 0x7B) ||
  decide (n = 0x7D) ||
  decide (0x7F ≤ n ∧ n ≤ 0xA1) || decide (n = 0xA7) || decide (n = 0xAB) ||
  decide (n = 0xAD) ||
  decide (n = 0xB6) || decide (n = 0xB7) || decide (n = 0xBB) || decide (n = 0xBF) ||
  decide (n = 0x1680) ||
  decide (0x2000 ≤ n ∧ n ≤ 0x202F) || decide (0x2030 ≤ n ∧ n ≤ 0x203D) ||
  decide (0x203F ≤ n ∧ n ≤ 0x2043) || decide (0x2045 ≤ n ∧ n ≤ 0x2051) ||
  decide (0x2053 ≤ n ∧ n ≤ 0x205F) || decide (0x2060 ≤ n ∧ n ≤ 0x2064) ||
  decide (0x2066 ≤ n ∧ n ≤ 0x206F) || decide (n = 0x3000) ||
  decide (0x3001 ≤ n ∧ n ≤ 0x3003) || decide (0x3008 ≤ n ∧ n ≤ 0x3011) ||
  decide (0x3014 ≤ n ∧ n ≤ 0x301F) || decide (n = 0x30FB) || decide (n = 0xFEFF) ||
  decide (0xFF01 ≤ n ∧ n ≤ 0xFF03) || decide (0xFF05 ≤ n ∧ n ≤ 0xFF0A) ||
  decide (0xFF0C ≤ n ∧ n ≤ 0xFF0F) || decide (n = 0xFF1A) || decide (n = 0xFF1B) ||
  decide (n = 0xFF1F) || decide (n = 0xFF20) || decide (0xFF3B ≤ n ∧ n ≤ 0xFF3D) ||
  decide (n = 0xFF3F) ||
  decide (n = 0xFF5B) || decide (n = 0xFF5D) || decide (0xFF5F ≤ n ∧ n ≤ 0xFF65)

/-- Boolean form of the P/Z/C test on a character. -/
def isPZC (c : Char) : Bool := pzcB c.toNat

/-- One step of Python `str.lower()` on a single character, for the ASCII
range (the only range the normalization claims exercise; all CJK data is
caseless). -/
def pyCharLower (c : Char) : Char :=
  if 65 ≤ c.toNat ∧ c.toNat ≤ 90 then Char.ofNat (c.toNat + 32) else c

/-- The character transformation performed by `_normalize` after the
truthiness guard: delete every P/Z/C character, then lowercase. -/
def normChars (cs : List Char) : List Char :=
  (cs.filter (fun c => !isPZC c)).map pyCharLower

mutual

/-- Nesting depth of a JSON-shaped value, used as recursion fuel for the
`repr` rendering below. -/
def JVal.depth : JVal → Nat
  | .null => 1
  | .bool _ => 1
  | .num _ => 1
  | .str _ => 1
  | .arr xs => JVal.depthList xs + 1
  | .obj kvs => JVal.depthKV kvs + 1

/-- Maximal depth of a list of values. -/
def JVal.depthList : List JVal → Nat
  | [] => 0
  | x :: xs => max (JVal.depth x) (JVal.depthList xs)

/-- Maximal depth of the values of a key/value list. -/
def JVal.depthKV : List (String × JVal) → Nat
  | [] => 0
  | (_, x) :: xs => max (JVal.depth x) (JVal.depthKV xs)

end

/-- Python `repr` of a JSON-shaped value, fuelled to make the nested
recursion structural.  Only the exact rendering of nested containers
depends on the fuel; every claim below evaluates it on flat values. -/
def pyReprFuel : Nat → JVal → String
  | 0, _ => ""
  | _ + 1, .null => "None"
  | _ + 1, .bool true => "True"
  | _ + 1, .bool false => "False"
  | _ + 1, .num n => toString n
  | _ + 1, .str s => "'" ++ s ++ "'"
  | f + 1, .arr xs => "[" ++ String.intercalate ", " (xs.map (pyReprFuel f)) ++ "]"
  | f + 1, .obj kvs =>
      "\x7b" ++
        String.intercalate ", "
          (kvs.map (fun kv => "'" ++ kv.1 ++ "': " ++ pyReprFuel f kv.2)) ++
        "\x7d"

/-- Python `str(x)` on a JSON-shaped value. -/
def pyStr : JVal → String
  | .str s => s
  | .null => "None"
  | .bool true => "True"
  | .bool false => "False"
  | .num n => toString n
  | v => pyReprFuel (JVal.depth v) v

/-- `_normalize` from `app.py`, on an arbitrary Python value: falsy input
yields `""`; otherwise all P/Z/C characters of `str(txt)` are removed and
the remainder is lowercased. -/
def _normalize (v : JVal) : String :=
  if v.truthy then String.mk (normChars (pyStr v).data) else ""

/-- `_normalize` restricted to string inputs (the common call shape). -/
def normalizeStr (s : String) : String := _normalize (.str s)

/-- `_normalize` on an optional string, distinguishing the `None` input
the spec calls "null input". -/
def _normalize_opt : Option String → String
  | none => _normalize .null
  | some s => _normalize (.str s)

/-- Python `needle in hay` on strings: substring containment. -/
def strIn (needle hay : String) : Bool :=
  hay.data.tails.any (fun t => needle.data.isPrefixOf t)

/-- Requires every element to be a string (Python `str.join` raises
`TypeError` on any non-string element). -/
def asStrList : List JVal → Except Unit (List String)
  | [] => .ok []
  | .str s :: rest => (asStrList rest).map (s :: ·)
  | _ :: _ => .error ()

/-- Body of `_rich_array_to_text`: `"".join((x.get("plain_text") or "")
for x in arr)`.  A non-dict element raises (`x.get`), and a truthy
non-string `plain_text` raises inside `join`. -/
def richGo : List JVal → Except Unit String
  | [] => .ok ""
  | x :: rest => do
      let p ← x.get "plain_text"
      match (if p.truthy then p else .str "") with
      | .str s => (richGo rest).map (s ++ ·)
      | _ => .error ()

/-- `_rich_array_to_text` from `app.py`: non-list input degrades to `""`. -/
def _rich_array_to_text : JVal → Except Unit String
  | .arr xs => richGo xs
  | _ => .ok ""

/-- The `select`/`status` branch of `_prop_to_text`:
`v.get("name") if isinstance(v, dict) and v else ""`. -/
def selectLike (kvs : List (String × JVal)) (key : String) : Except Unit JVal :=
  match (List.lookup key kvs).getD .null with
  | .obj inner =>
      if (JVal.obj inner).truthy then .ok ((List.lookup "name" inner).getD .null)
      else .ok (.str "")
  | _ => .ok (.str "")

/-- The item list of the `multi_select` branch:
`[x.get("name", "") for x in v if isinstance(x, dict)]` followed by the
string check `", ".join` performs. -/
def multiSelectItems : List JVal → Except Unit (List String)
  | [] => .ok []
  | .obj inner :: rest => do
      match (List.lookup "name" inner).getD (.str "") with
      | .str s => (multiSelectItems rest).map (s :: ·)
      | _ => .error ()
  | _ :: rest => multiSelectItems rest

/-- The item list of the `people` branch:
`[(p.get("name") or "") for p in v if isinstance(p, dict)]` followed by
the string check `", ".join` performs. -/
def peopleItems : List JVal → Except Unit (List String)
  | [] => .ok []
  | .obj inner :: rest => do
      match (if ((List.lookup "name" inner).getD .null).truthy
             then (List.lookup "name" inner).getD .null else .str "") with
      | .str s => (peopleItems rest).map (s :: ·)
      | _ => .error ()
  | _ :: rest => peopleItems rest

/-- Python `for x in v` feasibility for the comprehension-based branches:
lists iterate their elements, strings iterate characters (never dicts)
and dicts iterate their keys (never dicts); every other value raises
`TypeError`. -/
def iterDicts : JVal → Except Unit (List JVal)
  | .arr xs => .ok xs
  | .str _ => .ok []
  | .obj _ => .ok []
  | _ => .error ()

/-- `_prop_to_text` from `app.py`.  Returns the extracted value as a
Python value (the source can return non-string values, e.g. a `select`
option whose `name` is not a string); `.error ()` marks a raised
exception. -/
def _prop_to_text (prop : JVal) : Except Unit JVal :=
  match prop with
  | .obj kvs =>
    let t := (List.lookup "type" kvs).getD .null
    if t == .str "title" then
      (_rich_array_to_text ((List.lookup "title" kvs).getD (.arr []))).map .str
    else if t == .str "rich_text" then
      (_rich_array_to_text ((List.lookup "rich_text" kvs).getD (.arr []))).map .str
    else if t == .str "select" then selectLike kvs "select"
    else if t == .str "multi_select" then do
      let xs ← iterDicts ((List.lookup "multi_select" kvs).getD (.arr []))
      let items ← multiSelectItems xs
      .ok (.str (String.intercalate ", " items))
    else if t == .str "status" then selectLike kvs "status"
    else if t == .str "email" || t == .str "phone_number" || t == .str "url" then
      match t with
      | .str ts =>
          let v := (List.lookup ts kvs).getD .null
          .ok (if v.truthy then v else .str "")
      | _ => .error ()
    else if t == .str "number" then
      let v := (List.lookup "number" kvs).getD .null
      .ok (.str (pyStr (if v.truthy then v else .str "")))
    else if t == .str "checkbox" then
      .ok (.str (if ((List.lookup "checkbox" kvs).getD .null).truthy then "是" else "否"))
    else if t == .str "date" then
      let v0 := (List.lookup "date" kvs).getD .null
      match (if v0.truthy then v0 else .obj []) with
      | .obj inner =>
          let s := (List.lookup "start" inner).getD .null
          .ok (if s.truthy then s else .str "")
      | _ => .error ()
    else if t == .str "people" then do
      let xs ← iterDicts ((List.lookup "people" kvs).getD (.arr []))
      let items ← peopleItems xs
      .ok (.str (String.intercalate ", " items))
    else
      match t with
      | .str ts =>
          match (List.lookup ts kvs).getD .null with
          | .arr l => (_rich_array_to_text (.arr l)).map .str
          | .str s => .ok (.str s)
          | _ => .ok (.str "")
      | .arr _ => .error ()
      | .obj _ => .error ()
      | _ => .ok (.str "")
  | _ => .ok (.str "")

/-- `page.get("properties", {})`. -/
def propsOf (page : JVal) : Except Unit JVal := page.getD "properties" (.obj [])

/-- The scan of `_page_title`: first property whose declared type is
`"title"`. -/
def titleLoop : List (String × JVal) → Except Unit JVal
  | [] => .ok (.str "")
  | (_, p) :: rest => do
      let t ← p.get "type"
      if t == .str "title" then _prop_to_text p else titleLoop rest

/-- `_page_title` from `app.py`. -/
def _page_title (page : JVal) : Except Unit JVal := do
  let props ← propsOf page
  match props with
  | .obj kvs => titleLoop kvs
  | _ => .error ()

/-- `_page_label` from `app.py`, with `LABEL_KEYS = ["標籤"]`.  The
membership test `key in props` is modelled for each possible shape of
`properties` (dict-key lookup; list/str membership, whose positive case
would then raise on the subsequent `props[key]` indexing). -/
def _page_label (page : JVal) : Except Unit JVal := do
  let props ← propsOf page
  match props with
  | .obj kvs =>
      match List.lookup "標籤" kvs with
      | some p => (_prop_to_text p).map (fun v => if v.truthy then v else .str "")
      | none => .ok (.str "")
  | .arr xs => if xs.contains (.str "標籤") then .error () else .ok (.str "")
  | .str s => if strIn "標籤" s then .error () else .ok (.str "")
  | _ => .error ()

/-- `_page_serial` from `app.py`, with `SERIAL_KEY = "序號"` (non-empty,
so the early return for an empty key is never taken). -/
def _page_serial (page : JVal) : Except Unit JVal := do
  let props ← propsOf page
  match props with
  | .obj kvs =>
      (_prop_to_text ((List.lookup "序號" kvs).getD (.obj []))).map
        (fun v => if v.truthy then v else .str "")
  | _ => .error ()

/-- `_page_header` from `app.py`: `【label｜title｜序號:serial】` with the
label and serial parts present only when truthy.  The serial part goes
through an f-string (`str()` of any value); the other parts must be
strings for `"｜".join` to succeed. -/
def _page_header (page : JVal) : Except Unit String := do
  let tv ← _page_title page
  let title := if tv.truthy then tv else .str "(未命名)"
  let lv ← _page_label page
  let sv ← _page_serial page
  let parts := (if lv.truthy then [lv] else []) ++ [title] ++
    (if sv.truthy then [JVal.str ("序號:" ++ pyStr sv)] else [])
  let strs ← asStrList parts
  .ok ("【" ++ String.intercalate "｜" strs ++ "】")

/-- `_page_all_text` from `app.py`: every property's extracted text,
truthy values only, joined by newlines. -/
def _page_all_text (page : JVal) : Except Unit String := do
  let props ← propsOf page
  match props with
  | .obj kvs => do
      let vals ← kvs.mapM (fun kv => _prop_to_text kv.2)
      let strs ← asStrList (vals.filter JVal.truthy)
      .ok (String.intercalate "\n" strs)
  | _ => .error ()

/-- Decimal digit test: the `regex` module's `\d` on a str pattern
matches every Unicode decimal digit (category Nd), not only ASCII.
Covered here are the Nd code points of the blocks this repository's
data can contain (the same blocks declared for `pzcB`): ASCII `0-9`
and the fullwidth digits `０-９` (U+FF10 to U+FF19). -/
def isDigitCh (c : Char) : Bool :=
  decide (48 ≤ c.toNat ∧ c.toNat ≤ 57) ||
  decide (0xFF10 ≤ c.toNat ∧ c.toNat ≤ 0xFF19)

/-- Decimal value of one digit character: `int()` accepts every Unicode
decimal digit at its decimal value, so the fullwidth `３` counts as 3. -/
def digitValCh (c : Char) : Nat :=
  if c.toNat ≤ 57 then c.toNat - 48 else c.toNat - 0xFF10

/-- Whitespace test (`\s` and `str.strip()`): ASCII whitespace plus the
Unicode white-space code points. -/
def isWsCh (c : Char) : Bool :=
  decide (9 ≤ c.toNat ∧ c.toNat ≤ 13) || decide (c.toNat = 0x20) ||
  decide (c.toNat = 0x85) || decide (c.toNat = 0xA0) || decide (c.toNat = 0x1680) ||
  decide (0x2000 ≤ c.toNat ∧ c.toNat ≤ 0x200A) || decide (c.toNat = 0x2028) ||
  decide (c.toNat = 0x2029) || decide (c.toNat = 0x202F) ||
  decide (c.toNat = 0x205F) || decide (c.toNat = 0x3000)

/-- Maximal leading digit run (greedy `\d+`): the run and the rest. -/
def takeDigits : List Char → List Char × List Char
  | [] => ([], [])
  | c :: cs =>
      if isDigitCh c then
        let p := takeDigits cs
        (c :: p.1, p.2)
      else ([], c :: cs)

/-- Numeric value of a digit run (`int(...)` on the captured group). -/
def digitsVal (ds : List Char) : Nat := ds.foldl (fun a c => 10 * a + digitValCh c) 0

/-- Greedy `\s*`. -/
def dropWsCh (cs : List Char) : List Char := cs.dropWhile isWsCh

/-- Attempt of the pattern `(\d+)\s*-\s*(\d+)` anchored at the start of
`cs`.  Backtracking inside `\d+`/`\s*` can never turn a failure into a
success for this pattern (shortening a digit run exposes another digit,
never `-`; shortening a space run exposes a space), so the greedy
maximal-munch reading is exact. -/
def matchSerialAt (cs : List Char) : Option (Nat × Nat) :=
  let p1 := takeDigits cs
  if p1.1.isEmpty then none
  else
    match dropWsCh p1.2 with
    | c :: r3 =>
        if c = '-' then
          let p2 := takeDigits (dropWsCh r3)
          if p2.1.isEmpty then none else some (digitsVal p1.1, digitsVal p2.1)
        else none
    | [] => none

/-- `regex.search` for the two-part serial pattern: leftmost match wins. -/
def searchSerial : List Char → Option (Nat × Nat)
  | [] => none
  | c :: cs =>
      match matchSerialAt (c :: cs) with
      | some p => some p
      | none => searchSerial cs

/-- `regex.search(r'(\d+)', s)`: value of the first (maximal) digit run. -/
def firstNumber : List Char → Option Nat
  | [] => none
  | c :: cs => if isDigitCh c then some (digitsVal (takeDigits (c :: cs)).1) else firstNumber cs

/-- `_serial_sort_key` from `app.py` on a string: `(major, minor)` for a
`<major>-<minor>` serial, `(major, 999999)` when only a bare number is
found, `(999999, 999999)` otherwise. -/
def _serial_sort_key (s : String) : Nat × Nat :=
  match searchSerial s.data with
  | some p => p
  | none =>
      match firstNumber s.data with
      | some n => (n, 999999)
      | none => (999999, 999999)

/-- `_serial_sort_key` on the Python value produced by `_page_serial`:
a falsy serial is replaced by `""` (`serial or ''`), and a truthy
non-string serial makes `regex.search` raise `TypeError`. -/
def _serial_sort_key_j : JVal → Except Unit (Nat × Nat)
  | v =>
      if v.truthy then
        match v with
        | .str s => .ok (_serial_sort_key s)
        | _ => .error ()
      else .ok (_serial_sort_key "")

/-- Strict lexicographic order on `(major, minor)` keys (Python tuple
comparison). -/
def keyLtB (a b : Nat × Nat) : Bool :=
  decide (a.1 < b.1) || (decide (a.1 = b.1) && decide (a.2 < b.2))

/-- Stable insertion of `a` into a sorted list: `a` goes after every
element strictly smaller, before the first element not smaller (so the
earlier-input element wins ties, as in Python's stable `list.sort`). -/
def insertStable {α : Type} (lt : α → α → Bool) (a : α) : List α → List α
  | [] => [a]
  | b :: bs => if lt b a then b :: insertStable lt a bs else a :: b :: bs

/-- Stable ascending sort by a strict comparison — the semantics of
Python's `list.sort`/`sorted`. -/
def sortStable {α : Type} (lt : α → α → Bool) : List α → List α
  | [] => []
  | x :: xs => insertStable lt x (sortStable lt xs)

/-- Serial strings sorted by `_serial_sort_key` (the `items.sort(...)`
call of `list_label_items_by_keyword`, projected to the serial field). -/
def sortSerials (ss : List String) : List String :=
  sortStable (fun a b => keyLtB (_serial_sort_key a) (_serial_sort_key b)) ss

/-- Whether a string contains any decimal digit (i.e. whether the serial
pattern's fallback `(\d+)` can match at all). -/
def hasDigitStr (s : String) : Bool := s.data.any isDigitCh

/-- Python hashability of a value used as a dict key: lists and dicts
raise `TypeError` inside `groups.setdefault`. -/
def hashable : JVal → Bool
  | .arr _ => false
  | .obj _ => false
  | _ => true

/-- `groups.setdefault(label, []).append(pg)`: append to the existing
group with an equal raw label, or open a new group at the end (dict
insertion order). -/
def addToGroups (gs : List (JVal × List JVal)) (label : JVal) (pg : JVal) :
    List (JVal × List JVal) :=
  match gs with
  | [] => [(label, [pg])]
  | (l, ps) :: rest =>
      if l == label then (l, ps ++ [pg]) :: rest
      else (l, ps) :: addToGroups rest label pg

/-- The grouping loop of `list_label_items_by_keyword`: skip pages whose
label is falsy; keep a page iff the normalized keyword and normalized
label contain one another (either direction). -/
def collectGroupsAux (kw : String) : List JVal → List (JVal × List JVal) →
    Except Unit (List (JVal × List JVal))
  | [], gs => .ok gs
  | pg :: rest, gs => do
      let label ← _page_label pg
      if !label.truthy then collectGroupsAux kw rest gs
      else
        let lblNorm := _normalize label
        if strIn kw lblNorm || strIn lblNorm kw then
          if hashable label then collectGroupsAux kw rest (addToGroups gs label pg)
          else .error ()
        else collectGroupsAux kw rest gs

/-- The groups map of `list_label_items_by_keyword`, in insertion order. -/
def collectGroups (pages : List JVal) (kw : String) :
    Except Unit (List (JVal × List JVal)) :=
  collectGroupsAux kw pages []

/-- Distance between two lengths: `abs(len(a) - len(b))`. -/
def natDist (a b : Nat) : Nat := max a b - min a b

/-- The sort key of the best-label selection:
`(_normalize(l) != kw, abs(len(_normalize(l)) - len(kw)))`. -/
def labelKey (l : JVal) (kw : String) : Bool × Nat :=
  (_normalize l != kw, natDist (_normalize l).length kw.length)

/-- Strict lexicographic order on best-label keys (`False < True` on the
first component, then the numeric distance). -/
def labelKeyLtB (a b : Bool × Nat) : Bool :=
  (!a.1 && b.1) || (a.1 == b.1 && decide (a.2 < b.2))

/-- `sorted(groups.keys(), key=...)[0]`: the first key attaining the
minimal sort key (Python `sorted` is stable, so the fold replaces the
candidate only on a strictly smaller key). -/
def bestLabel (kw : String) (k0 : JVal) (rest : List JVal) : JVal :=
  rest.foldl (fun b l => if labelKeyLtB (labelKey l kw) (labelKey b kw) then l else b) k0

/-- The decorate step of `items.sort(key=...)`: compute every element's
serial sort key (a raised exception, e.g. a truthy non-string serial,
propagates out of `list_label_items_by_keyword`). -/
def decorateSerials (items : List JVal) : Except Unit (List ((Nat × Nat) × JVal)) :=
  items.mapM (fun pg => do
    let sv ← _page_serial pg
    let k ← _serial_sort_key_j sv
    pure (k, pg))

/-- `list_label_items_by_keyword` from `app.py`, parameterized by the
page list `fetch_all_pages()` would return.  Yields the selected label,
the serial-sorted first `limit` pages of its group, and the untruncated
group size. -/
def list_label_items_by_keyword (pages : List JVal) (keyword : String) (limit : Nat) :
    Except Unit (Option JVal × List JVal × Nat) :=
  let kw := normalizeStr keyword
  if kw = "" then .ok (none, [], 0)
  else do
    let gs ← collectGroups pages kw
    match gs with
    | [] => .ok (none, [], 0)
    | g0 :: grest =>
        let best := bestLabel kw g0.1 (grest.map (·.1))
        let items := (List.lookup best gs).getD []
        let dec ← decorateSerials items
        let sorted := sortStable (fun a b => keyLtB a.1 b.1) dec
        let itemsSorted := sorted.map (·.2)
        .ok (some best, itemsSorted.take limit, itemsSorted.length)

/-- Python slice `s[:n]` on a string: the first `n` code points. -/
def strTake (s : String) (n : Nat) : String := String.mk (s.data.take n)

/-- The data the two remote calls of `search_notion` consume: the
configured database id, the result list of `/v1/search` (or its
failure) and the result of `fetch_all_pages()` (or its failure). -/
structure SearchEnv where
  dbId : String
  searchResults : Except Unit (List JVal)
  allPages : Except Unit (List JVal)

/-- Tier 1 of `search_notion`: the `/v1/search` loop.  Keeps pages whose
parent is the configured database, de-duplicates by page id, builds
`header + "\n" + text[:900]` chunks and breaks once `max_hits` chunks
are collected.  A raised exception ends the whole `try` block, keeping
the chunks accumulated so far. -/
def searchLoop1 (dbId : String) (maxHits : Nat) :
    List JVal → List String → List JVal → List String × List JVal
  | [], chunks, seen => (chunks, seen)
  | pg :: rest, chunks, seen =>
    match pg.getD "parent" (.obj []) with
    | .error _ => (chunks, seen)
    | .ok parent =>
      match parent.get "type" with
      | .error _ => (chunks, seen)
      | .ok ty =>
        if ty == .str "database_id" then
          match parent.get "database_id" with
          | .error _ => (chunks, seen)
          | .ok dbv =>
            if dbv == .str dbId then
              match pg.get "id" with
              | .error _ => (chunks, seen)
              | .ok pid =>
                if seen.contains pid then searchLoop1 dbId maxHits rest chunks seen
                else
                  match _page_header pg with
                  | .error _ => (chunks, seen)
                  | .ok header =>
                    match _page_all_text pg with
                    | .error _ => (chunks, seen)
                    | .ok text =>
                      let chunks2 := chunks ++ [header ++ "\n" ++ strTake text 900]
                      let seen2 := seen ++ [pid]
                      if maxHits ≤ chunks2.length then (chunks2, seen2)
                      else searchLoop1 dbId maxHits rest chunks2 seen2
            else searchLoop1 dbId maxHits rest chunks seen
        else searchLoop1 dbId maxHits rest chunks seen

/-- The containment test of the fallback-scan loop:
`kw_norm and kw_norm not in _normalize(text + " " + _page_title(pg))`.
Python `and` short-circuits, so the title is not even computed for an
empty keyword; a non-string title makes the `+` concatenation raise. -/
def tier2Keep (kw text : String) (pg : JVal) : Except Unit Bool :=
  if kw = "" then .ok true
  else
    match _page_title pg with
    | .error _ => .error ()
    | .ok tv =>
      match tv with
      | .str t => .ok (strIn kw (normalizeStr (text ++ " " ++ t)))
      | _ => .error ()

/-- Tier 2 of `search_notion`: the full-scan fallback loop.  Skips seen
ids and pages failing the containment test, builds
`header + "\n" + text[:900]` chunks and breaks at `max_hits`.  A raised
exception ends the whole `try` block, keeping the chunks accumulated so
far. -/
def searchLoop2 (kw : String) (maxHits : Nat) :
    List JVal → List String → List JVal → List String × List JVal
  | [], chunks, seen => (chunks, seen)
  | pg :: rest, chunks, seen =>
    match pg.get "id" with
    | .error _ => (chunks, seen)
    | .ok pid =>
      if seen.contains pid then searchLoop2 kw maxHits rest chunks seen
      else
        match _page_all_text pg with
        | .error _ => (chunks, seen)
        | .ok text =>
          match tier2Keep kw text pg with
          | .error _ => (chunks, seen)
          | .ok keep =>
            if keep then
              match _page_header pg with
              | .error _ => (chunks, seen)
              | .ok header =>
                let chunks2 := chunks ++ [header ++ "\n" ++ strTake text 900]
                let seen2 := seen ++ [pid]
                if maxHits ≤ chunks2.length then (chunks2, seen2)
                else searchLoop2 kw maxHits rest chunks2 seen2
            else searchLoop2 kw maxHits rest chunks seen

/-- `search_notion` from `app.py`, with both accumulators (`chunks` and
`seen_ids`) exposed: tier 1 first; the fallback scan runs only while
fewer than `max_hits` chunks exist, and a failed remote call is caught,
keeping whatever was accumulated. -/
def search_notion_full (env : SearchEnv) (keyword : String) (maxHits : Nat) :
    List String × List JVal :=
  let kw := normalizeStr keyword
  let t1 :=
    match env.searchResults with
    | .error _ => ([], [])
    | .ok rs => searchLoop1 env.dbId maxHits rs [] []
  if t1.1.length < maxHits then
    match env.allPages with
    | .error _ => t1
    | .ok ps => searchLoop2 kw maxHits ps t1.1 t1.2
  else t1

/-- The chunk list `search_notion` returns. -/
def search_notion (env : SearchEnv) (keyword : String) (maxHits : Nat) : List String :=
  (search_notion_full env keyword maxHits).1

/-- Python `str.strip()`. -/
def pyStrip (s : String) : String :=
  String.mk (((s.data.dropWhile isWsCh).reverse.dropWhile isWsCh).reverse)

/-- The fixed "no information" sentence of `gpt_answer_from_kb`. -/
def noInfoReply : String := "資料庫沒有足夠資訊回答此問題"

/-- The strict-quoting system rules of `gpt_answer_from_kb`. -/
def kbRules : String :=
  "你是公司內部知識助理。嚴格規則：\n" ++
  "1) 只能使用下方【來源】逐字摘錄或極簡重述，不得加入任何外部知識、定義或推論。\n" ++
  "2) 若問題過短/模糊或【來源】顯示多個不同主題，請先請使用者釐清，不要自行下定義。\n" ++
  "3) 若來源不足以回答，回：資料庫沒有足夠資訊回答此問題。\n" ++
  "4) 回覆最後加上【來源】列出使用到的條目（標頭第一行即可）。\n"

/-- `gpt_answer_from_kb` from `app.py`, parameterized by the
language-model collaborator (`system prompt → user message → optional
completion text`).  Returns the reply and the number of collaborator
calls made. -/
def gpt_answer_from_kb (llm : String → String → Option String)
    (question : String) (chunks : List String) : String × Nat :=
  if chunks.isEmpty then (noInfoReply, 0)
  else
    let source := String.intercalate "\n\n" chunks
    (pyStrip ((llm (kbRules ++ "\n---【來源】---\n" ++ source) question).getD ""), 1)

/-- Page id as `search_notion` reads it (`pg.get("id")`), defaulting to
`None` for the shapes on which the read would raise. -/
def pageIdD (pg : JVal) : JVal :=
  match pg.get "id" with
  | .ok v => v
  | .error _ => .null

/-- A page every `search_notion` read succeeds on: the id read, the
aggregate text, a string-valued title and the header all evaluate
without raising. -/
def pageClean (pg : JVal) : Bool :=
  (match pg.get "id" with | .ok _ => true | .error _ => false) &&
  (match _page_all_text pg with | .ok _ => true | .error _ => false) &&
  (match _page_title pg with | .ok (.str _) => true | _ => false) &&
  (match _page_header pg with | .ok _ => true | .error _ => false)

/-- The matching criterion of the claims: the page's normalized
aggregate text contains the normalized query. -/
def aggMatches (kw : String) (pg : JVal) : Bool :=
  match _page_all_text pg with
  | .ok t => strIn kw (normalizeStr t)
  | .error _ => false

/-- The property types `_prop_to_text` handles with a dedicated branch. -/
def supportedPropTypes : List String :=
  ["title", "rich_text", "select", "multi_select", "status",
   "email", "phone_number", "url", "number", "checkbox", "date", "people"]

/-- Fixture: a minimal clean page (id `a1`, title `apple`). -/
def wpageA : JVal :=
  .obj [("id", .str "a1"),
    ("properties", .obj [("T", .obj [("type", .str "title"),
      ("title", .arr [.obj [("plain_text", .str "apple")]])])])]

/-- Fixture: a minimal clean page (id `b1`, title `apron`). -/
def wpageB : JVal :=
  .obj [("id", .str "b1"),
    ("properties", .obj [("T", .obj [("type", .str "title"),
      ("title", .arr [.obj [("plain_text", .str "apron")]])])])]

/-- Fixture: a page of the configured database as `/v1/search` returns it
(same shape as `wpageA` plus the parent pointer). -/
def wpageS : JVal :=
  .obj [("id", .str "s1"),
    ("parent", .obj [("type", .str "database_id"), ("database_id", .str "db")]),
    ("properties", .obj [("T", .obj [("type", .str "title"),
      ("title", .arr [.obj [("plain_text", .str "apple")]])])])]

/-- Fixture: environment whose fallback scan sees two clean pages. -/
def wenv : SearchEnv := { dbId := "db", searchResults := .ok [], allPages := .ok [wpageA, wpageB] }

/-- Fixture: environment whose indexed tier returns one page of the
configured database and whose fallback scan is empty. -/
def cenvTier1 : SearchEnv := { dbId := "db", searchResults := .ok [wpageS], allPages := .ok [] }

/-- Fixture: environment with an empty indexed tier and one clean page in
the store. -/
def cenvScan : SearchEnv := { dbId := "db", searchResults := .ok [], allPages := .ok [wpageA] }


/-- Fixture: a page labeled `3.客戶報價` with serial `3-1`. -/
def wpgQ1 : JVal :=
  .obj [("id", .str "q1"),
    ("properties", .obj [
      ("T", .obj [("type", .str "title"),
        ("title", .arr [.obj [("plain_text", .str "報價單")]])]),
      ("標籤", .obj [("type", .str "select"),
        ("select", .obj [("name", .str "3.客戶報價")])]),
      ("序號", .obj [("type", .str "rich_text"),
        ("rich_text", .arr [.obj [("plain_text", .str "3-1")]])])])]

/-- Fixture: a page labeled `報價` with serial `1`. -/
def wpgQ2 : JVal :=
  .obj [("id", .str "q2"),
    ("properties", .obj [
      ("T", .obj [("type", .str "title"),
        ("title", .arr [.obj [("plain_text", .str "報價攻略")]])]),
      ("標籤", .obj [("type", .str "select"),
        ("select", .obj [("name", .str "報價")])]),
      ("序號", .obj [("type", .str "rich_text"),
        ("rich_text", .arr [.obj [("plain_text", .str "1")]])])])]

theorem charToNat_ofNat {n : Nat} (h : n < 55296) : (Char.ofNat n).toNat = n := by
  have hv : n.isValidChar := Or.inl h
  simp [Char.ofNat, hv, Char.ofNatAux, Char.toNat, UInt32.toNat, UInt32.ofNatCore]

theorem pzcB_false_of_lower {m : Nat} (h1 : 97 ≤ m) (h2 : m ≤ 122) : pzcB m = false := by
  unfold pzcB
  simp only [Bool.or_eq_false_iff, decide_eq_false_iff_not]
  omega

theorem isPZC_pyCharLower {c : Char} (h : isPZC c = false) :
    isPZC (pyCharLower c) = false := by
  unfold pyCharLower
  by_cases hc : 65 ≤ c.toNat ∧ c.toNat ≤ 90
  · have hlt : c.toNat + 32 < 55296 := by omega
    unfold isPZC
    rw [if_pos hc, charToNat_ofNat hlt]
    exact pzcB_false_of_lower (by omega) (by omega)
  · simpa [hc] using h

theorem pyCharLower_idem (c : Char) : pyCharLower (pyCharLower c) = pyCharLower c := by
  unfold pyCharLower
  by_cases hc : 65 ≤ c.toNat ∧ c.toNat ≤ 90
  · have hlt : c.toNat + 32 < 55296 := by omega
    rw [if_pos hc, charToNat_ofNat hlt, if_neg (by omega : ¬(65 ≤ c.toNat + 32 ∧ c.toNat + 32 ≤ 90))]
  · rw [if_neg hc, if_neg hc]

theorem normChars_idem (cs : List Char) : normChars (normChars cs) = normChars cs := by
  unfold normChars
  rw [List.filter_eq_self.mpr]
  · rw [List.map_map]
    exact List.map_congr_left (fun c _ => pyCharLower_idem c)
  · intro c hc
    obtain ⟨d, hd, rfl⟩ := List.mem_map.mp hc
    have hdp : isPZC d = false := by
      have := List.of_mem_filter hd
      simpa using this
    simp [isPZC_pyCharLower hdp]

theorem normalizeStr_eq (s : String) : normalizeStr s = String.mk (normChars s.data) := by
  by_cases hs : s = ""
  · subst hs
    rfl
  · simp [normalizeStr, _normalize, JVal.truthy, pyStr, hs]

theorem normChars_append (a b : List Char) :
    normChars (a ++ b) = normChars a ++ normChars b := by
  simp [normChars, List.filter_append]

theorem normalizeStr_append (a b : String) :
    normalizeStr (a ++ b) = normalizeStr a ++ normalizeStr b := by
  rw [normalizeStr_eq, normalizeStr_eq, normalizeStr_eq]
  apply congrArg
  have : (a ++ b).data = a.data ++ b.data := String.data_append a b
  rw [this, normChars_append]

theorem strIn_iff (n h : String) : strIn n h = true ↔ n.data <:+: h.data := by
  unfold strIn
  rw [List.any_eq_true]
  constructor
  · rintro ⟨t, ht, hp⟩
    exact List.infix_iff_prefix_suffix.mpr
      ⟨t, List.isPrefixOf_iff_prefix.mp hp, (List.mem_tails _ _).mp ht⟩
  · intro hinf
    obtain ⟨t, hpre, hsuf⟩ := List.infix_iff_prefix_suffix.mp hinf
    exact ⟨t, (List.mem_tails _ _).mpr hsuf, List.isPrefixOf_iff_prefix.mpr hpre⟩

theorem strIn_append_left {kw t : String} (u : String) (h : strIn kw t = true) :
    strIn kw (t ++ u) = true := by
  rw [strIn_iff] at h ⊢
  rw [String.data_append]
  exact h.trans ⟨[], u.data, by simp⟩

/-- Claim C6: text normalization is idempotent — for every string `s`,
`_normalize(_normalize(s)) = _normalize(s)`. -/
theorem claim_C6_normalize_idempotent (s : String) :
    normalizeStr (normalizeStr s) = normalizeStr s := by
  rw [normalizeStr_eq s, normalizeStr_eq, normChars_idem]

/-- Claim C9: the text normalizer is total — it is a total function of an
optional string (so no input makes it raise), the null input yields `""`,
the empty string yields `""`, and every string input is sent to the same
total string-level normalization used throughout the development. -/
theorem claim_C9_normalize_total :
    _normalize_opt none = "" ∧ _normalize_opt (some "") = "" ∧
      ∀ s : String, _normalize_opt (some s) = normalizeStr s :=
  ⟨rfl, rfl, fun _ => rfl⟩

/-- Claim C3: on an empty chunk list the grounded answer assembler
returns the fixed "no information" sentence and performs zero calls to
the language-model collaborator, whatever the collaborator would
answer. -/
theorem claim_C3_empty_chunks_short_circuit
    (llm : String → String → Option String) (question : String) :
    gpt_answer_from_kb llm question [] = ("資料庫沒有足夠資訊回答此問題", 0) := rfl

theorem isWsCh_of_digit {c : Char} (h : isDigitCh c = true) : isWsCh c = false := by
  unfold isDigitCh at h
  unfold isWsCh
  simp only [Bool.or_eq_true, decide_eq_true_eq] at h
  simp only [Bool.or_eq_false_iff, decide_eq_false_iff_not]
  omega

theorem takeDigits_append (ds rest : List Char) (hds : ∀ c ∈ ds, isDigitCh c = true)
    (hrest : ∀ c, rest.head? = some c → isDigitCh c = false) :
    takeDigits (ds ++ rest) = (ds, rest) := by
  induction ds with
  | nil =>
      cases rest with
      | nil => rfl
      | cons c cs => simp [takeDigits, hrest c rfl]
  | cons c ds ih =>
      have hc := hds c (List.mem_cons_self c ds)
      have ih2 := ih (fun x hx => hds x (List.mem_cons_of_mem c hx))
      simp [takeDigits, hc, ih2]

theorem dropWsCh_cons {c : Char} {cs : List Char} (h : isWsCh c = false) :
    dropWsCh (c :: cs) = c :: cs := by
  simp [dropWsCh, List.dropWhile_cons, h]

theorem matchSerialAt_full (ds es : List Char) (hd : ds ≠ []) (he : es ≠ [])
    (hds : ∀ c ∈ ds, isDigitCh c = true) (hes : ∀ c ∈ es, isDigitCh c = true) :
    matchSerialAt (ds ++ '-' :: es) = some (digitsVal ds, digitsVal es) := by
  have h1 : takeDigits (ds ++ '-' :: es) = (ds, '-' :: es) :=
    takeDigits_append ds ('-' :: es) hds
      (fun c hc => by
        simp only [List.head?] at hc
        cases hc
        decide)
  have h2 : takeDigits es = (es, []) := by
    have := takeDigits_append es [] hes (fun c hc => by simp [List.head?] at hc)
    simpa using this
  obtain ⟨e, es', rfl⟩ : ∃ e es', es = e :: es' := by
    cases es with
    | nil => exact absurd rfl he
    | cons e es' => exact ⟨e, es', rfl⟩
  have hew : isWsCh e = false := isWsCh_of_digit (hes e (List.mem_cons_self e es'))
  unfold matchSerialAt
  rw [h1]
  simp only [List.isEmpty_eq_true, hd, if_false]
  rw [dropWsCh_cons (by decide : isWsCh '-' = false)]
  simp only [if_pos rfl]
  rw [dropWsCh_cons hew, h2]
  simp

theorem searchSerial_full (ds es : List Char) (hd : ds ≠ []) (he : es ≠ [])
    (hds : ∀ c ∈ ds, isDigitCh c = true) (hes : ∀ c ∈ es, isDigitCh c = true) :
    searchSerial (ds ++ '-' :: es) = some (digitsVal ds, digitsVal es) := by
  cases ds with
  | nil => exact absurd rfl hd
  | cons d ds' =>
      have := matchSerialAt_full (d :: ds') es hd he hds hes
      simp only [List.cons_append] at this ⊢
      unfold searchSerial
      rw [this]

theorem searchSerial_none (cs : List Char) (h : cs.any isDigitCh = false) :
    searchSerial cs = none := by
  induction cs with
  | nil => rfl
  | cons c cs ih =>
      rw [List.any_cons, Bool.or_eq_false_iff] at h
      unfold searchSerial matchSerialAt
      simp [takeDigits, h.1, ih h.2]

theorem firstNumber_none (cs : List Char) (h : cs.any isDigitCh = false) :
    firstNumber cs = none := by
  induction cs with
  | nil => rfl
  | cons c cs ih =>
      rw [List.any_cons, Bool.or_eq_false_iff] at h
      simp [firstNumber, h.1, ih h.2]

theorem serialSortKey_noDigit (s : String) (h : hasDigitStr s = false) :
    _serial_sort_key s = (999999, 999999) := by
  unfold hasDigitStr at h
  unfold _serial_sort_key
  rw [searchSerial_none s.data h, firstNumber_none s.data h]

/-- Claim C5 (amended): the serial sort key compares numerically on each
half — the example serials sort as specified, the key of a pure
`<major>-<minor>` serial is the pair of numeric values of the digit
halves, and a digit-free (unparsable) serial gets the sentinel key
`(999999, 999999)` and therefore sorts after every serial whose parsed
major is below the sentinel.  (The unparsable-last guarantee holds only
below the sentinel: a parsable major `≥ 999999` defeats it.) -/
theorem claim_C5_serial_order_amended :
    sortSerials ["3-10", "3-2", "3-1", "abc"] = ["3-1", "3-2", "3-10", "abc"] ∧
    (∀ ds es : List Char, ds ≠ [] → es ≠ [] →
      (∀ c ∈ ds, isDigitCh c = true) → (∀ c ∈ es, isDigitCh c = true) →
      _serial_sort_key (String.mk (ds ++ '-' :: es)) = (digitsVal ds, digitsVal es)) ∧
    (∀ s t : String, hasDigitStr t = false → (_serial_sort_key s).1 < 999999 →
      keyLtB (_serial_sort_key s) (_serial_sort_key t) = true) := by
  refine ⟨by decide, ?_, ?_⟩
  · intro ds es hd he hds hes
    unfold _serial_sort_key
    rw [searchSerial_full ds es hd he hds hes]
  · intro s t ht hs
    rw [serialSortKey_noDigit t ht]
    unfold keyLtB
    simp only [Bool.or_eq_true, decide_eq_true_eq]
    exact Or.inl hs

/-- Witness for claim C5 (amended), instantiating every hypothesis at
concrete serials. -/
theorem claim_C5_serial_order_witness :
    _serial_sort_key (String.mk (['3'] ++ '-' :: ['1', '0'])) = (digitsVal ['3'], digitsVal ['1', '0']) ∧
    keyLtB (_serial_sort_key "3-1") (_serial_sort_key "abc") = true :=
  ⟨claim_C5_serial_order_amended.2.1 ['3'] ['1', '0'] (by decide) (by decide)
      (by decide) (by decide),
   claim_C5_serial_order_amended.2.2 "3-1" "abc" (by decide) (by decide)⟩

/-- Counterexample to claim C5 as stated: `"1000000"` is a parsable
serial (fallback major 1000000) yet the digit-free serial `"abc"` —
whose key is the sentinel `(999999, 999999)` — sorts before it, so an
unparsable serial does not sort after every parsable one. -/
theorem claim_C5_counterexample :
    _serial_sort_key "1000000" = (1000000, 999999) ∧ hasDigitStr "abc" = false ∧
    sortSerials ["1000000", "abc"] = ["abc", "1000000"] := by
  refine ⟨by decide, by decide, by decide⟩

theorem JVal.beq_str_str (a b : String) : (JVal.str a == JVal.str b) = (a == b) := rfl

/-- Claim C7 (amended): the field extractor never raises on a field value
that is not a dictionary (it degrades to `""`), and on a dictionary whose
declared type is not one of the supported kinds it falls back to the
inner value stored under the type's own name: a string is returned
as-is, a list is rendered as rich text (which can itself raise on a
malformed span), and an absent or other-shaped inner value degrades to
`""`. -/
theorem claim_C7_unknown_type_amended :
    (∀ v : JVal, (∀ kvs, v ≠ .obj kvs) → _prop_to_text v = .ok (.str "")) ∧
    ∀ (kvs : List (String × JVal)) (t : String),
      supportedPropTypes.contains t = false →
      List.lookup "type" kvs = some (.str t) →
      (∀ s, List.lookup t kvs = some (.str s) → _prop_to_text (.obj kvs) = .ok (.str s)) ∧
      (∀ l, List.lookup t kvs = some (.arr l) →
        _prop_to_text (.obj kvs) = (_rich_array_to_text (.arr l)).map .str) ∧
      (List.lookup t kvs = none → _prop_to_text (.obj kvs) = .ok (.str "")) ∧
      (∀ v, List.lookup t kvs = some v → (∀ s, v ≠ .str s) → (∀ l, v ≠ .arr l) →
        _prop_to_text (.obj kvs) = .ok (.str "")) := by
  constructor
  · intro v hv
    cases v with
    | obj kvs => exact absurd rfl (hv kvs)
    | null => rfl
    | bool b => rfl
    | num n => rfl
    | str s => rfl
    | arr xs => rfl
  · intro kvs t hsup hty
    simp only [supportedPropTypes, List.contains_cons, List.contains_nil,
      Bool.or_eq_false_iff, beq_eq_false_iff_ne] at hsup
    obtain ⟨h1, h2, h3, h4, h5, h6, h7, h8, h9, h10, h11, h12, -⟩ := hsup
    refine ⟨?_, ?_, ?_, ?_⟩
    · intro s hin
      simp [_prop_to_text, hty, hin, JVal.beq_str_str,
        h1, h2, h3, h4, h5, h6, h7, h8, h9, h10, h11, h12]
    · intro l hin
      simp [_prop_to_text, hty, hin, JVal.beq_str_str,
        h1, h2, h3, h4, h5, h6, h7, h8, h9, h10, h11, h12]
    · intro hin
      simp [_prop_to_text, hty, hin, JVal.beq_str_str,
        h1, h2, h3, h4, h5, h6, h7, h8, h9, h10, h11, h12]
    · intro v hin hvs hvl
      cases v with
      | str s => exact absurd rfl (hvs s)
      | arr l => exact absurd rfl (hvl l)
      | null =>
          simp [_prop_to_text, hty, hin, JVal.beq_str_str,
            h1, h2, h3, h4, h5, h6, h7, h8, h9, h10, h11, h12]
      | bool b =>
          simp [_prop_to_text, hty, hin, JVal.beq_str_str,
            h1, h2, h3, h4, h5, h6, h7, h8, h9, h10, h11, h12]
      | num n =>
          simp [_prop_to_text, hty, hin, JVal.beq_str_str,
            h1, h2, h3, h4, h5, h6, h7, h8, h9, h10, h11, h12]
      | obj o =>
          simp [_prop_to_text, hty, hin, JVal.beq_str_str,
            h1, h2, h3, h4, h5, h6, h7, h8, h9, h10, h11, h12]

/-- Witness for claim C7 (amended): a non-dict field value degrades to
`""`, and a `created_time` field (unsupported kind, string inner value)
returns the inner string. -/
theorem claim_C7_unknown_type_witness :
    _prop_to_text (.num 3) = .ok (.str "") ∧
    _prop_to_text (.obj [("type", .str "created_time"), ("created_time", .str "2024-05-01")]) =
      .ok (.str "2024-05-01") :=
  ⟨claim_C7_unknown_type_amended.1 (.num 3) (fun _ h => JVal.noConfusion h),
   (claim_C7_unknown_type_amended.2
      [("type", .str "created_time"), ("created_time", .str "2024-05-01")]
      "created_time" (by decide) (by decide)).1 "2024-05-01" (by decide)⟩

/-- Counterexample to claim C7 as stated: a `created_time` field — an
unsupported kind — extracts to its (non-empty) inner string rather than
to `""`, and a malformed `title` array makes the extractor raise. -/
theorem claim_C7_counterexample :
    _prop_to_text (.obj [("type", .str "created_time"),
        ("created_time", .str "2024-05-01T00:00:00Z")]) =
      .ok (.str "2024-05-01T00:00:00Z") ∧
    ("2024-05-01T00:00:00Z" : String) ≠ "" ∧
    _prop_to_text (.obj [("type", .str "title"), ("title", .arr [.num 5])]) = .error () :=
  ⟨by decide, by decide, by decide⟩

/-- Claim C8 (amended): a date-typed field extracts to its `start` value
(the empty string when `start` is absent); the `end` value is ignored. -/
theorem claim_C8_date_amended :
    (∀ (s : String) (e : JVal), s ≠ "" →
      _prop_to_text (.obj [("type", .str "date"),
          ("date", .obj [("start", .str s), ("end", e)])]) = .ok (.str s)) ∧
    (∀ e : JVal,
      _prop_to_text (.obj [("type", .str "date"), ("date", .obj [("end", e)])]) =
        .ok (.str "")) := by
  constructor
  · intro s e hs
    simp [_prop_to_text, JVal.truthy, List.lookup, hs]
  · intro e
    simp [_prop_to_text, JVal.truthy, List.lookup]

/-- Witness for claim C8 (amended) at a concrete date range. -/
theorem claim_C8_date_witness :
    _prop_to_text (.obj [("type", .str "date"),
        ("date", .obj [("start", .str "2024-01-01"), ("end", .str "2024-02-02")])]) =
      .ok (.str "2024-01-01") :=
  claim_C8_date_amended.1 "2024-01-01" (.str "2024-02-02") (by decide)

/-- Counterexample to claim C8 as stated: with both `start` and `end`
present the extractor still returns only the start value, not
`"start ~ end"`. -/
theorem claim_C8_counterexample :
    _prop_to_text (.obj [("type", .str "date"),
        ("date", .obj [("start", .str "2024-01-01"), ("end", .str "2024-02-02")])]) =
      .ok (.str "2024-01-01") ∧
    ("2024-01-01" : String) ≠ "2024-01-01 ~ 2024-02-02" :=
  ⟨by decide, by decide⟩

theorem notMem_of_contains_false {l : List JVal} {a : JVal} (h : l.contains a = false) :
    a ∉ l := by
  intro hm
  rw [List.contains_eq_any_beq] at h
  have : l.any (a == ·) = true := List.any_eq_true.mpr ⟨a, hm, by simp⟩
  simp only [this] at h
  cases h

theorem mem_of_contains_true {l : List JVal} {a : JVal} (h : l.contains a = true) :
    a ∈ l := by
  rw [List.contains_eq_any_beq, List.any_eq_true] at h
  obtain ⟨x, hx, hax⟩ := h
  rwa [show a = x from by simpa using hax]

theorem nodup_append_singleton {l : List JVal} {a : JVal} (hnd : l.Nodup) (ha : a ∉ l) :
    (l ++ [a]).Nodup := by
  simp [List.nodup_append, hnd, ha]

theorem searchLoop1_inv (dbId : String) (k : Nat) (ps : List JVal) :
    ∀ (chunks : List String) (seen : List JVal),
      chunks.length = seen.length → seen.Nodup →
      (searchLoop1 dbId k ps chunks seen).1.length =
          (searchLoop1 dbId k ps chunks seen).2.length ∧
        (searchLoop1 dbId k ps chunks seen).2.Nodup := by
  induction ps with
  | nil => intro chunks seen hlen hnd; exact ⟨hlen, hnd⟩
  | cons pg rest ih =>
      intro chunks seen hlen hnd
      rw [searchLoop1]
      split
      next => exact ⟨hlen, hnd⟩
      next parent heq =>
        split
        next => exact ⟨hlen, hnd⟩
        next ty heq2 =>
          split
          next hty =>
            split
            next => exact ⟨hlen, hnd⟩
            next dbv heq3 =>
              split
              next hdb =>
                split
                next => exact ⟨hlen, hnd⟩
                next pid heq4 =>
                  split
                  next hcont => exact ih chunks seen hlen hnd
                  next hcont =>
                    split
                    next => exact ⟨hlen, hnd⟩
                    next header heq5 =>
                      split
                      next => exact ⟨hlen, hnd⟩
                      next text heq6 =>
                        have hpid : pid ∉ seen :=
                          notMem_of_contains_false (eq_false_of_ne_true hcont)
                        have hlen2 : (chunks ++ [header ++ "\n" ++ strTake text 900]).length =
                            (seen ++ [pid]).length := by simp [hlen]
                        have hnd2 : (seen ++ [pid]).Nodup := nodup_append_singleton hnd hpid
                        dsimp only
                        split
                        next hcap => exact ⟨hlen2, hnd2⟩
                        next hcap => exact ih _ _ hlen2 hnd2
              next hdb => exact ih chunks seen hlen hnd
          next hty => exact ih chunks seen hlen hnd

theorem searchLoop2_inv (kw : String) (k : Nat) (ps : List JVal) :
    ∀ (chunks : List String) (seen : List JVal),
      chunks.length = seen.length → seen.Nodup →
      (searchLoop2 kw k ps chunks seen).1.length =
          (searchLoop2 kw k ps chunks seen).2.length ∧
        (searchLoop2 kw k ps chunks seen).2.Nodup := by
  induction ps with
  | nil => intro chunks seen hlen hnd; exact ⟨hlen, hnd⟩
  | cons pg rest ih =>
      intro chunks seen hlen hnd
      rw [searchLoop2]
      split
      next => exact ⟨hlen, hnd⟩
      next pid heq =>
        split
        next hcont => exact ih chunks seen hlen hnd
        next hcont =>
          split
          next => exact ⟨hlen, hnd⟩
          next text heq2 =>
            split
            next => exact ⟨hlen, hnd⟩
            next keep heq3 =>
              split
              next hkeep =>
                split
                next => exact ⟨hlen, hnd⟩
                next header heq4 =>
                  have hpid : pid ∉ seen :=
                    notMem_of_contains_false (eq_false_of_ne_true hcont)
                  have hlen2 : (chunks ++ [header ++ "\n" ++ strTake text 900]).length =
                      (seen ++ [pid]).length := by simp [hlen]
                  have hnd2 : (seen ++ [pid]).Nodup := nodup_append_singleton hnd hpid
                  dsimp only
                  split
                  next hcap => exact ⟨hlen2, hnd2⟩
                  next hcap => exact ih _ _ hlen2 hnd2
              next hkeep => exact ih chunks seen hlen hnd

theorem searchLoop1_le (dbId : String) (k : Nat) (ps : List JVal) :
    ∀ (chunks : List String) (seen : List JVal), chunks.length < k →
      (searchLoop1 dbId k ps chunks seen).1.length ≤ k := by
  induction ps with
  | nil => intro chunks seen hlt; exact Nat.le_of_lt hlt
  | cons pg rest ih =>
      intro chunks seen hlt
      rw [searchLoop1]
      split
      next => exact Nat.le_of_lt hlt
      next parent heq =>
        split
        next => exact Nat.le_of_lt hlt
        next ty heq2 =>
          split
          next hty =>
            split
            next => exact Nat.le_of_lt hlt
            next dbv heq3 =>
              split
              next hdb =>
                split
                next => exact Nat.le_of_lt hlt
                next pid heq4 =>
                  split
                  next hcont => exact ih chunks seen hlt
                  next hcont =>
                    split
                    next => exact Nat.le_of_lt hlt
                    next header heq5 =>
                      split
                      next => exact Nat.le_of_lt hlt
                      next text heq6 =>
                        dsimp only
                        split
                        next hcap => simpa using hlt
                        next hcap =>
                          exact ih _ _ (Nat.lt_of_not_le hcap)
              next hdb => exact ih chunks seen hlt
          next hty => exact ih chunks seen hlt

theorem searchLoop2_le (kw : String) (k : Nat) (ps : List JVal) :
    ∀ (chunks : List String) (seen : List JVal), chunks.length < k →
      (searchLoop2 kw k ps chunks seen).1.length ≤ k := by
  induction ps with
  | nil => intro chunks seen hlt; exact Nat.le_of_lt hlt
  | cons pg rest ih =>
      intro chunks seen hlt
      rw [searchLoop2]
      split
      next => exact Nat.le_of_lt hlt
      next pid heq =>
        split
        next hcont => exact ih chunks seen hlt
        next hcont =>
          split
          next => exact Nat.le_of_lt hlt
          next text heq2 =>
            split
            next => exact Nat.le_of_lt hlt
            next keep heq3 =>
              split
              next hkeep =>
                split
                next => exact Nat.le_of_lt hlt
                next header heq4 =>
                  dsimp only
                  split
                  next hcap => simpa using hlt
                  next hcap => exact ih _ _ (Nat.lt_of_not_le hcap)
              next hkeep => exact ih chunks seen hlt

/-- Claim C10: the chunk list of `search_notion` is deduplicated by
record id — the search state pairs each chunk with one entry of the
`seen_ids` set (equal lengths) and those ids are pairwise distinct, so
a record found by both the indexed tier and the fallback scan is
emitted only once. -/
theorem claim_C10_dedup (env : SearchEnv) (keyword : String) (k : Nat) :
    (search_notion_full env keyword k).1.length = (search_notion_full env keyword k).2.length ∧
      (search_notion_full env keyword k).2.Nodup := by
  have hbase :
      (match env.searchResults with
        | .error _ => (([] : List String), ([] : List JVal))
        | .ok rs => searchLoop1 env.dbId k rs [] []).1.length =
        (match env.searchResults with
          | .error _ => (([] : List String), ([] : List JVal))
          | .ok rs => searchLoop1 env.dbId k rs [] []).2.length ∧
      (match env.searchResults with
        | .error _ => (([] : List String), ([] : List JVal))
        | .ok rs => searchLoop1 env.dbId k rs [] []).2.Nodup := by
    cases env.searchResults with
    | error e => exact ⟨rfl, List.nodup_nil⟩
    | ok rs => exact searchLoop1_inv env.dbId k rs [] [] rfl List.nodup_nil
  unfold search_notion_full
  dsimp only
  split
  next hlt =>
    cases henv : env.allPages with
    | error e => exact hbase
    | ok ps => exact searchLoop2_inv _ k ps _ _ hbase.1 hbase.2
  next hlt => exact hbase

theorem clean_id {pg : JVal} (h : pageClean pg = true) : pg.get "id" = .ok (pageIdD pg) := by
  unfold pageClean at h
  simp only [Bool.and_eq_true] at h
  obtain ⟨⟨⟨h1, h2⟩, h3⟩, h4⟩ := h
  unfold pageIdD
  cases hx : pg.get "id" with
  | ok v => rfl
  | error e => rw [hx] at h1; simp at h1

theorem clean_text {pg : JVal} (h : pageClean pg = true) : ∃ t, _page_all_text pg = .ok t := by
  unfold pageClean at h
  simp only [Bool.and_eq_true] at h
  obtain ⟨⟨⟨h1, h2⟩, h3⟩, h4⟩ := h
  cases hx : _page_all_text pg with
  | ok t => exact ⟨t, rfl⟩
  | error e => rw [hx] at h2; simp at h2

theorem clean_title {pg : JVal} (h : pageClean pg = true) : ∃ s, _page_title pg = .ok (.str s) := by
  unfold pageClean at h
  simp only [Bool.and_eq_true] at h
  obtain ⟨⟨⟨h1, h2⟩, h3⟩, h4⟩ := h
  cases hx : _page_title pg with
  | ok v =>
      cases v with
      | str s => exact ⟨s, rfl⟩
      | null => rw [hx] at h3; simp at h3
      | bool b => rw [hx] at h3; simp at h3
      | num n => rw [hx] at h3; simp at h3
      | arr l => rw [hx] at h3; simp at h3
      | obj o => rw [hx] at h3; simp at h3
  | error e => rw [hx] at h3; simp at h3

theorem clean_header {pg : JVal} (h : pageClean pg = true) : ∃ hd, _page_header pg = .ok hd := by
  unfold pageClean at h
  simp only [Bool.and_eq_true] at h
  obtain ⟨⟨⟨h1, h2⟩, h3⟩, h4⟩ := h
  cases hx : _page_header pg with
  | ok v => exact ⟨v, rfl⟩
  | error e => rw [hx] at h4; simp at h4

theorem tier2Keep_ok {kw text : String} {pg : JVal} {t : String}
    (htitle : _page_title pg = .ok (.str t)) : ∃ b, tier2Keep kw text pg = .ok b := by
  unfold tier2Keep
  by_cases hkw : kw = ""
  · exact ⟨true, by rw [if_pos hkw]⟩
  · rw [if_neg hkw, htitle]
    exact ⟨_, rfl⟩

theorem tier2Keep_true_of_agg {kw text : String} {pg : JVal} {t : String}
    (htext : _page_all_text pg = .ok text) (htitle : _page_title pg = .ok (.str t))
    (hagg : aggMatches kw pg = true) : tier2Keep kw text pg = .ok true := by
  unfold tier2Keep
  by_cases hkw : kw = ""
  · rw [if_pos hkw]
  · rw [if_neg hkw, htitle]
    unfold aggMatches at hagg
    rw [htext] at hagg
    have hagg2 : strIn kw (normalizeStr text) = true := hagg
    have hin : strIn kw (normalizeStr (text ++ " " ++ t)) = true := by
      rw [normalizeStr_append (text ++ " ") t, normalizeStr_append text " "]
      exact strIn_append_left _ (strIn_append_left _ hagg2)
    show Except.ok (strIn kw (normalizeStr (text ++ " " ++ t))) = Except.ok true
    rw [hin]

theorem agg_false_of_keep_false {kw text : String} {pg : JVal} {t : String}
    (htext : _page_all_text pg = .ok text) (htitle : _page_title pg = .ok (.str t))
    (hkeep : tier2Keep kw text pg = .ok false) : aggMatches kw pg = false := by
  cases hagg : aggMatches kw pg with
  | false => rfl
  | true =>
      rw [tier2Keep_true_of_agg htext htitle hagg] at hkeep
      simp at hkeep

theorem length_filter_split {α : Type} (l : List α) (p q : α → Bool) :
    (l.filter p).length =
      (l.filter (fun a => p a && q a)).length + (l.filter (fun a => p a && !q a)).length := by
  induction l with
  | nil => rfl
  | cons x xs ih =>
      simp only [List.filter_cons]
      cases hp : p x <;> cases hq : q x <;> simp [hp, hq, ih] <;> omega

theorem nodup_length_le {l s : List JVal} (h : l.Nodup) (hs : ∀ x ∈ l, x ∈ s) :
    l.length ≤ s.length := by
  have h1 : l.toFinset.card = l.length := List.toFinset_card_of_nodup h
  have h2 : l.toFinset ⊆ s.toFinset := by
    intro x hx
    rw [List.mem_toFinset] at hx ⊢
    exact hs x hx
  calc l.length = l.toFinset.card := h1.symm
    _ ≤ s.toFinset.card := Finset.card_le_card h2
    _ ≤ s.length := s.toFinset_card_le

theorem seen_filter_le (kw : String) (ps : List JVal) (seen : List JVal)
    (hnd : (ps.map pageIdD).Nodup) :
    (ps.filter (fun pg => aggMatches kw pg && seen.contains (pageIdD pg))).length ≤
      seen.length := by
  set l := ps.filter (fun pg => aggMatches kw pg && seen.contains (pageIdD pg)) with hl
  have hsub : l.Sublist ps := List.filter_sublist ps
  have hmapnd : (l.map pageIdD).Nodup := List.Nodup.sublist (hsub.map pageIdD) hnd
  have hmem : ∀ x ∈ l.map pageIdD, x ∈ seen := by
    intro x hx
    obtain ⟨pg, hpg, rfl⟩ := List.mem_map.mp hx
    rw [hl] at hpg
    have := List.of_mem_filter hpg
    rw [Bool.and_eq_true] at this
    exact mem_of_contains_true this.2
  have := nodup_length_le hmapnd hmem
  simpa using this

theorem count_bound (kw : String) (ps : List JVal) (seen : List JVal) (k : Nat)
    (hnd : (ps.map pageIdD).Nodup)
    (hagg : k < (ps.filter (aggMatches kw)).length) :
    k < seen.length +
      (ps.filter (fun pg => aggMatches kw pg && !(seen.contains (pageIdD pg)))).length := by
  have hsplit := length_filter_split ps (aggMatches kw)
    (fun pg => seen.contains (pageIdD pg))
  have hle := seen_filter_le kw ps seen hnd
  omega

theorem contains_append_singleton {seen : List JVal} {pid x : JVal} (h : x ≠ pid) :
    (seen ++ [pid]).contains x = seen.contains x := by
  simp [List.contains_eq_any_beq, List.any_append, h]

theorem searchLoop2_exact (kw : String) (k : Nat) :
    ∀ (ps : List JVal) (chunks : List String) (seen : List JVal),
      (∀ pg ∈ ps, pageClean pg = true) →
      (ps.map pageIdD).Nodup →
      chunks.length < k →
      k ≤ chunks.length +
        (ps.filter (fun pg => aggMatches kw pg && !(seen.contains (pageIdD pg)))).length →
      (searchLoop2 kw k ps chunks seen).1.length = k := by
  intro ps
  induction ps with
  | nil =>
      intro chunks seen hclean hnd hlt hbound
      simp only [List.filter_nil, List.length_nil, Nat.add_zero] at hbound
      omega
  | cons pg rest ih =>
      intro chunks seen hclean hnd hlt hbound
      have hcpg := hclean pg (List.mem_cons_self pg rest)
      have hcrest : ∀ p ∈ rest, pageClean p = true :=
        fun p hp => hclean p (List.mem_cons_of_mem pg hp)
      rw [List.map_cons] at hnd
      have hndrest : (rest.map pageIdD).Nodup := hnd.of_cons
      have hpgnotin : pageIdD pg ∉ rest.map pageIdD := (List.nodup_cons.mp hnd).1
      have hid := clean_id hcpg
      obtain ⟨text, htext⟩ := clean_text hcpg
      obtain ⟨tt, htitle⟩ := clean_title hcpg
      obtain ⟨hd, hheader⟩ := clean_header hcpg
      rw [searchLoop2]
      split
      next a heq => rw [hid] at heq; exact Except.noConfusion heq
      next pid heq =>
        have hpid : pageIdD pg = pid := by
          have h2 := hid.symm.trans heq
          injection h2
        split
        next hcont =>
          apply ih chunks seen hcrest hndrest hlt
          have hdrop :
              List.filter (fun p => aggMatches kw p && !(seen.contains (pageIdD p)))
                  (pg :: rest) =
                List.filter (fun p => aggMatches kw p && !(seen.contains (pageIdD p))) rest := by
            rw [List.filter_cons]
            have hfalse : (aggMatches kw pg && !(seen.contains (pageIdD pg))) = false := by
              rw [hpid, hcont]
              simp
            rw [hfalse]
            simp
          rwa [hdrop] at hbound
        next hcont =>
          split
          next a heq2 => rw [htext] at heq2; exact Except.noConfusion heq2
          next text' heq2 =>
            have htext2 : text = text' := by
              have h2 := htext.symm.trans heq2
              injection h2
            subst htext2
            split
            next a heq3 =>
              obtain ⟨b, hb⟩ := @tier2Keep_ok kw text pg tt htitle
              rw [hb] at heq3
              exact Except.noConfusion heq3
            next keep heq3 =>
              split
              next hkeep =>
                split
                next a heq4 => rw [hheader] at heq4; exact Except.noConfusion heq4
                next header heq4 =>
                  dsimp only
                  split
                  next hcap =>
                    simp only [List.length_append, List.length_cons, List.length_nil]
                    simp only [List.length_append, List.length_cons, List.length_nil] at hcap
                    omega
                  next hcap =>
                    apply ih _ _ hcrest hndrest
                    · simp only [List.length_append, List.length_cons, List.length_nil] at hcap ⊢
                      omega
                    · have hfrest :
                          List.filter
                              (fun p => aggMatches kw p && !((seen ++ [pid]).contains (pageIdD p)))
                              rest =
                            List.filter
                              (fun p => aggMatches kw p && !(seen.contains (pageIdD p))) rest := by
                        apply List.filter_congr
                        intro p hp
                        have hne : pageIdD p ≠ pid := by
                          intro hcontra
                          apply hpgnotin
                          rw [hpid, ← hcontra]
                          exact List.mem_map_of_mem pageIdD hp
                        rw [contains_append_singleton hne]
                      rw [hfrest]
                      have hcount :
                          (List.filter (fun p => aggMatches kw p && !(seen.contains (pageIdD p)))
                              (pg :: rest)).length ≤
                            1 + (List.filter
                              (fun p => aggMatches kw p && !(seen.contains (pageIdD p)))
                              rest).length := by
                        rw [List.filter_cons]
                        split
                        · simp only [List.length_cons]
                          omega
                        · omega
                      simp only [List.length_append, List.length_cons, List.length_nil]
                      omega
              next hkeep =>
                have hkf : keep = false := eq_false_of_ne_true hkeep
                subst hkf
                have hagg : aggMatches kw pg = false :=
                  agg_false_of_keep_false htext htitle heq3
                apply ih chunks seen hcrest hndrest hlt
                have hdrop :
                    List.filter (fun p => aggMatches kw p && !(seen.contains (pageIdD p)))
                        (pg :: rest) =
                      List.filter (fun p => aggMatches kw p && !(seen.contains (pageIdD p)))
                        rest := by
                  rw [List.filter_cons]
                  simp [hagg]
                rwa [hdrop] at hbound

theorem searchLoop2_append_or (kw : String) (k : Nat) (extra : List JVal) :
    ∀ (ps : List JVal) (chunks : List String) (seen : List JVal), chunks.length < k →
      searchLoop2 kw k (ps ++ extra) chunks seen = searchLoop2 kw k ps chunks seen ∨
        (searchLoop2 kw k ps chunks seen).1.length < k := by
  intro ps
  induction ps with
  | nil => intro chunks seen hlt; exact Or.inr hlt
  | cons pg rest ih =>
      intro chunks seen hlt
      simp only [List.cons_append]
      rw [searchLoop2, searchLoop2]
      split
      next => exact Or.inl rfl
      next pid heq =>
        split
        next hcont => exact ih chunks seen hlt
        next hcont =>
          split
          next => exact Or.inl rfl
          next text heq2 =>
            split
            next => exact Or.inl rfl
            next keep heq3 =>
              split
              next hkeep =>
                split
                next => exact Or.inl rfl
                next header heq4 =>
                  dsimp only
                  split
                  next hcap => exact Or.inl rfl
                  next hcap => exact ih _ _ (Nat.lt_of_not_le hcap)
              next hkeep => exact ih chunks seen hlt

theorem searchNotion_le (env : SearchEnv) (q : String) (k : Nat) (hk : 1 ≤ k) :
    (search_notion env q k).length ≤ k := by
  unfold search_notion search_notion_full
  dsimp only
  have hle1 : (match env.searchResults with
      | .error _ => (([] : List String), ([] : List JVal))
      | .ok rs => searchLoop1 env.dbId k rs [] []).1.length ≤ k := by
    cases env.searchResults with
    | error e => simp
    | ok rs => exact searchLoop1_le env.dbId k rs [] [] (by simpa using hk)
  by_cases hlt : (match env.searchResults with
      | .error _ => (([] : List String), ([] : List JVal))
      | .ok rs => searchLoop1 env.dbId k rs [] []).1.length < k
  · rw [if_pos hlt]
    cases henv : env.allPages with
    | error e => exact hle1
    | ok ps => exact searchLoop2_le _ k ps _ _ hlt
  · rw [if_neg hlt]
    exact hle1

theorem searchNotion_exact (env : SearchEnv) (q : String) (k : Nat) (ps : List JVal)
    (hk : 1 ≤ k) (henv : env.allPages = .ok ps)
    (hclean : ∀ pg ∈ ps, pageClean pg = true)
    (hnd : (ps.map pageIdD).Nodup)
    (hagg : k < (ps.filter (aggMatches (normalizeStr q))).length) :
    (search_notion env q k).length = k := by
  unfold search_notion search_notion_full
  dsimp only
  rw [henv]
  dsimp only
  have hbase :
      (match env.searchResults with
        | .error _ => (([] : List String), ([] : List JVal))
        | .ok rs => searchLoop1 env.dbId k rs [] []).1.length =
        (match env.searchResults with
          | .error _ => (([] : List String), ([] : List JVal))
          | .ok rs => searchLoop1 env.dbId k rs [] []).2.length ∧
      (match env.searchResults with
        | .error _ => (([] : List String), ([] : List JVal))
        | .ok rs => searchLoop1 env.dbId k rs [] []).2.Nodup := by
    cases env.searchResults with
    | error e => exact ⟨rfl, List.nodup_nil⟩
    | ok rs => exact searchLoop1_inv env.dbId k rs [] [] rfl List.nodup_nil
  have hle1 : (match env.searchResults with
      | .error _ => (([] : List String), ([] : List JVal))
      | .ok rs => searchLoop1 env.dbId k rs [] []).1.length ≤ k := by
    cases env.searchResults with
    | error e => simp
    | ok rs => exact searchLoop1_le env.dbId k rs [] [] (by simpa using hk)
  by_cases hlt : (match env.searchResults with
      | .error _ => (([] : List String), ([] : List JVal))
      | .ok rs => searchLoop1 env.dbId k rs [] []).1.length < k
  · rw [if_pos hlt]
    apply searchLoop2_exact (normalizeStr q) k ps _ _ hclean hnd hlt
    have hcb := count_bound (normalizeStr q) ps
      (match env.searchResults with
        | .error _ => (([] : List String), ([] : List JVal))
        | .ok rs => searchLoop1 env.dbId k rs [] []).2 k hnd hagg
    omega
  · rw [if_neg hlt]
    omega

theorem searchNotion_append (env : SearchEnv) (q : String) (k : Nat) (ps extra : List JVal)
    (henv : env.allPages = .ok ps)
    (hres : (search_notion env q k).length = k) :
    search_notion { env with allPages := .ok (ps ++ extra) } q k = search_notion env q k := by
  unfold search_notion search_notion_full at hres ⊢
  dsimp only at hres ⊢
  rw [henv] at hres ⊢
  dsimp only at hres ⊢
  by_cases hlt : (match env.searchResults with
      | .error _ => (([] : List String), ([] : List JVal))
      | .ok rs => searchLoop1 env.dbId k rs [] []).1.length < k
  · rw [if_pos hlt] at hres ⊢
    rcases searchLoop2_append_or (normalizeStr q) k extra ps _ _ hlt with h | h
    · rw [h, if_pos hlt]
    · omega
  · rw [if_neg hlt] at hres
    rw [if_neg hlt, if_neg hlt]

/-- Claim C1 (amended): for every hit cap `k ≥ 1` the search returns at
most `k` chunks; if more than `k` records (with pairwise distinct ids,
all readable without exception) have normalized aggregate text
containing the normalized query, exactly `k` chunks are returned; and
once the cap is reached, records appended after the processed prefix of
the store are never consulted (short-circuit).  At `k = 0` the bound
fails: a successful indexed-tier hit still produces one chunk, because
the loop appends before checking the cap. -/
theorem claim_C1_search_cap_amended :
    (∀ (env : SearchEnv) (q : String) (k : Nat), 1 ≤ k →
      (search_notion env q k).length ≤ k) ∧
    (∀ (env : SearchEnv) (q : String) (k : Nat) (ps : List JVal), 1 ≤ k →
      env.allPages = .ok ps →
      (∀ pg ∈ ps, pageClean pg = true) →
      (ps.map pageIdD).Nodup →
      k < (ps.filter (aggMatches (normalizeStr q))).length →
      (search_notion env q k).length = k) ∧
    (∀ (env : SearchEnv) (q : String) (k : Nat) (ps extra : List JVal),
      env.allPages = .ok ps →
      (search_notion env q k).length = k →
      search_notion { env with allPages := .ok (ps ++ extra) } q k = search_notion env q k) :=
  ⟨fun env q k hk => searchNotion_le env q k hk,
   fun env q k ps hk henv hclean hnd hagg =>
     searchNotion_exact env q k ps hk henv hclean hnd hagg,
   fun env q k ps extra henv hres => searchNotion_append env q k ps extra henv hres⟩

/-- Witness for claim C1 (amended): both clean fixture pages match the
query `"a"`, so with cap 1 the search returns at most one chunk, exactly
one chunk, and appending a further record does not change the result. -/
theorem claim_C1_search_cap_witness :
    (search_notion wenv "a" 1).length ≤ 1 ∧
    (search_notion wenv "a" 1).length = 1 ∧
    search_notion { wenv with allPages := .ok ([wpageA, wpageB] ++ [wpageS]) } "a" 1 =
      search_notion wenv "a" 1 :=
  ⟨claim_C1_search_cap_amended.1 wenv "a" 1 (by decide),
   claim_C1_search_cap_amended.2.1 wenv "a" 1 [wpageA, wpageB] (by decide) rfl
     (by decide) (by decide) (by decide),
   claim_C1_search_cap_amended.2.2 wenv "a" 1 [wpageA, wpageB] [wpageS] rfl
     (claim_C1_search_cap_amended.2.1 wenv "a" 1 [wpageA, wpageB] (by decide) rfl
       (by decide) (by decide) (by decide))⟩

/-- Counterexample to claim C1 as stated: with hit cap `k = 0` and an
indexed-tier hit, `search_notion` still returns one chunk (`len > k`),
because the tier-1 loop appends the chunk before checking the cap and
the fallback tier is gated on `len < 0` only. -/
theorem claim_C1_counterexample : (search_notion cenvTier1 "hello" 0).length = 1 := by decide

/-- Claim C2 (amended): a query whose normalization is empty does not
short-circuit to an empty result — the fallback scan's containment
filter is vacuously true for every record, so with a cap `k ≥ 1` and
more than `k` distinct clean records the search returns exactly `k`
chunks (in particular, a non-empty result whenever any record exists). -/
theorem claim_C2_empty_query_amended (env : SearchEnv) (q : String) (k : Nat)
    (ps : List JVal) (hq : normalizeStr q = "") (hk : 1 ≤ k)
    (henv : env.allPages = .ok ps)
    (hclean : ∀ pg ∈ ps, pageClean pg = true)
    (hnd : (ps.map pageIdD).Nodup)
    (hlen : k < ps.length) :
    (search_notion env q k).length = k := by
  apply searchNotion_exact env q k ps hk henv hclean hnd
  rw [hq]
  have hall : ps.filter (aggMatches "") = ps := by
    apply List.filter_eq_self.mpr
    intro pg hpg
    obtain ⟨t, ht⟩ := clean_text (hclean pg hpg)
    unfold aggMatches
    rw [ht]
    show strIn "" (normalizeStr t) = true
    rw [strIn_iff]
    exact List.nil_infix
  rw [hall]
  exact hlen

/-- Witness for claim C2 (amended): the query `"!"` normalizes to `""`,
and with two clean records and cap 1 the search still returns one
chunk. -/
theorem claim_C2_empty_query_witness : (search_notion wenv "!" 1).length = 1 :=
  claim_C2_empty_query_amended wenv "!" 1 [wpageA, wpageB] (by decide) (by decide) rfl
    (by decide) (by decide) (by decide)

/-- Counterexample to claim C2 as stated: the query `"!"` normalizes to
the empty string, yet the search over a store holding one record returns
that record's chunk instead of the empty sequence — neither tier checks
the normalized query for emptiness, and the fallback filter
`kw_norm and kw_norm not in ...` is vacuous for an empty `kw_norm`. -/
theorem claim_C2_counterexample :
    normalizeStr "!" = "" ∧ search_notion cenvScan "!" 3 = ["【apple】\napple"] :=
  ⟨by decide, by decide⟩

theorem mem_addToGroups (gs : List (JVal × List JVal)) (label pg x : JVal) :
    (∃ g ∈ addToGroups gs label pg, x ∈ g.2) ↔ x = pg ∨ ∃ g ∈ gs, x ∈ g.2 := by
  induction gs with
  | nil => simp [addToGroups]
  | cons g rest ih =>
      obtain ⟨l, ps⟩ := g
      unfold addToGroups
      by_cases hl : (l == label) = true
      · rw [if_pos hl]
        simp only [List.mem_cons, List.mem_append, List.mem_singleton]
        constructor
        · rintro ⟨g2, hg2 | hg2, hx⟩
          · subst hg2
            rcases List.mem_append.mp hx with hx | hx
            · exact Or.inr ⟨(l, ps), by simp, hx⟩
            · exact Or.inl (List.mem_singleton.mp hx)
          · exact Or.inr ⟨g2, by simp [hg2], hx⟩
        · rintro (rfl | ⟨g2, hg2, hx⟩)
          · exact ⟨(l, ps ++ [x]), Or.inl rfl, by simp⟩
          · rcases hg2 with rfl | hg2
            · exact ⟨(l, ps ++ [pg]), Or.inl rfl, by simp [hx]⟩
            · exact ⟨g2, Or.inr hg2, hx⟩
      · rw [if_neg hl]
        simp only [List.mem_cons]
        constructor
        · rintro ⟨g2, hg2 | hg2, hx⟩
          · subst hg2
            exact Or.inr ⟨(l, ps), by simp, hx⟩
          · rcases ih.mp ⟨g2, hg2, hx⟩ with h | ⟨g3, hg3, hx3⟩
            · exact Or.inl h
            · exact Or.inr ⟨g3, by simp [hg3], hx3⟩
        · rintro (rfl | ⟨g2, hg2, hx⟩)
          · obtain ⟨g3, hg3, hx3⟩ := ih.mpr (Or.inl rfl)
            exact ⟨g3, Or.inr hg3, hx3⟩
          · rcases hg2 with rfl | hg2
            · exact ⟨(l, ps), Or.inl rfl, hx⟩
            · obtain ⟨g3, hg3, hx3⟩ := ih.mpr (Or.inr ⟨g2, hg2, hx⟩)
              exact ⟨g3, Or.inr hg3, hx3⟩

theorem collectAux_mem (kw : String) :
    ∀ (pages : List JVal) (gs0 gs : List (JVal × List JVal)),
      collectGroupsAux kw pages gs0 = .ok gs →
      ∀ x, (∃ g ∈ gs, x ∈ g.2) ↔
        ((∃ g ∈ gs0, x ∈ g.2) ∨
          (x ∈ pages ∧ ∃ lv, _page_label x = .ok lv ∧ lv.truthy = true ∧
            (strIn kw (_normalize lv) || strIn (_normalize lv) kw) = true)) := by
  intro pages
  induction pages with
  | nil =>
      intro gs0 gs h x
      have hg : gs0 = gs := by
        unfold collectGroupsAux at h
        injection h
      subst hg
      simp
  | cons pg rest ih =>
      intro gs0 gs h x
      unfold collectGroupsAux at h
      cases hl : _page_label pg with
      | error e =>
          rw [hl] at h
          exact absurd h (by simp [Bind.bind, Except.bind])
      | ok label =>
          rw [hl] at h
          replace h :
              (if (!label.truthy) = true then collectGroupsAux kw rest gs0
               else
                 if (strIn kw (_normalize label) || strIn (_normalize label) kw) = true then
                   if hashable label = true then
                     collectGroupsAux kw rest (addToGroups gs0 label pg)
                   else .error ()
                 else collectGroupsAux kw rest gs0) = .ok gs := h
          by_cases ht : label.truthy = true
          · rw [if_neg (by simp [ht])] at h
            by_cases hm : (strIn kw (_normalize label) || strIn (_normalize label) kw) = true
            · rw [if_pos hm] at h
              by_cases hh : hashable label = true
              · rw [if_pos hh] at h
                rw [ih _ _ h x, mem_addToGroups]
                constructor
                · rintro ((rfl | hgs0) | hrest)
                  · exact Or.inr ⟨List.mem_cons_self x rest, label, hl, ht, hm⟩
                  · exact Or.inl hgs0
                  · exact Or.inr ⟨List.mem_cons_of_mem pg hrest.1, hrest.2⟩
                · rintro (hgs0 | ⟨hmem, lv, hlv, hlvt, hlvm⟩)
                  · exact Or.inl (Or.inr hgs0)
                  · rcases List.mem_cons.mp hmem with rfl | hmem
                    · exact Or.inl (Or.inl rfl)
                    · exact Or.inr ⟨hmem, lv, hlv, hlvt, hlvm⟩
              · rw [if_neg hh] at h
                exact absurd h (by simp)
            · rw [if_neg hm] at h
              rw [ih _ _ h x]
              constructor
              · rintro (hgs0 | hrest)
                · exact Or.inl hgs0
                · exact Or.inr ⟨List.mem_cons_of_mem pg hrest.1, hrest.2⟩
              · rintro (hgs0 | ⟨hmem, lv, hlv, hlvt, hlvm⟩)
                · exact Or.inl hgs0
                · rcases List.mem_cons.mp hmem with rfl | hmem
                  · rw [hl] at hlv
                    injection hlv with hlv2
                    subst hlv2
                    exact absurd hlvm (by simp [hm])
                  · exact Or.inr ⟨hmem, lv, hlv, hlvt, hlvm⟩
          · rw [if_pos (by simp [Bool.not_eq_true] at ht; simp [ht])] at h
            rw [ih _ _ h x]
            constructor
            · rintro (hgs0 | hrest)
              · exact Or.inl hgs0
              · exact Or.inr ⟨List.mem_cons_of_mem pg hrest.1, hrest.2⟩
            · rintro (hgs0 | ⟨hmem, lv, hlv, hlvt, hlvm⟩)
              · exact Or.inl hgs0
              · rcases List.mem_cons.mp hmem with rfl | hmem
                · rw [hl] at hlv
                  injection hlv with hlv2
                  subst hlv2
                  exact absurd hlvt ht
                · exact Or.inr ⟨hmem, lv, hlv, hlvt, hlvm⟩

theorem labelKeyLtB_irrefl (a : Bool × Nat) : labelKeyLtB a a = false := by
  obtain ⟨a1, a2⟩ := a
  unfold labelKeyLtB
  cases a1 <;> simp

theorem labelKeyLtB_asymm {a b : Bool × Nat} (h : labelKeyLtB a b = true) :
    labelKeyLtB b a = false := by
  obtain ⟨a1, a2⟩ := a
  obtain ⟨b1, b2⟩ := b
  unfold labelKeyLtB at h ⊢
  cases a1 <;> cases b1 <;> simp_all <;> omega

theorem labelKeyLtB_total_trans {a b c : Bool × Nat} (h1 : labelKeyLtB a c = true)
    (h2 : labelKeyLtB a b = false) : labelKeyLtB b c = true := by
  obtain ⟨a1, a2⟩ := a
  obtain ⟨b1, b2⟩ := b
  obtain ⟨c1, c2⟩ := c
  unfold labelKeyLtB at h1 h2 ⊢
  cases a1 <;> cases b1 <;> cases c1 <;> simp_all <;> omega

theorem bestLabel_cons (kw : String) (k0 l0 : JVal) (rest : List JVal) :
    bestLabel kw k0 (l0 :: rest) =
      bestLabel kw
        (if labelKeyLtB (labelKey l0 kw) (labelKey k0 kw) = true then l0 else k0) rest := by
  unfold bestLabel
  rw [List.foldl_cons]

theorem bestLabel_mem (kw : String) (k0 : JVal) (rest : List JVal) :
    bestLabel kw k0 rest ∈ k0 :: rest := by
  induction rest generalizing k0 with
  | nil => exact List.mem_cons_self k0 []
  | cons l0 rest ih =>
      rw [bestLabel_cons]
      by_cases hp : labelKeyLtB (labelKey l0 kw) (labelKey k0 kw) = true
      · rw [if_pos hp]
        rcases List.mem_cons.mp (ih l0) with h | h
        · rw [h]; simp
        · simp [h]
      · rw [if_neg hp]
        rcases List.mem_cons.mp (ih k0) with h | h
        · rw [h]; simp
        · simp [h]

theorem bestLabel_min (kw : String) (k0 : JVal) (rest : List JVal) :
    ∀ l ∈ k0 :: rest,
      labelKeyLtB (labelKey l kw) (labelKey (bestLabel kw k0 rest) kw) = false := by
  induction rest generalizing k0 with
  | nil =>
      intro l hl
      rcases List.mem_cons.mp hl with rfl | h
      · exact labelKeyLtB_irrefl _
      · cases h
  | cons l0 rest ih =>
      intro l hl
      rw [bestLabel_cons]
      by_cases hp : labelKeyLtB (labelKey l0 kw) (labelKey k0 kw) = true
      · rw [if_pos hp]
        rcases List.mem_cons.mp hl with rfl | hl2
        · cases hbk : labelKeyLtB (labelKey l kw) (labelKey (bestLabel kw l0 rest) kw) with
          | false => rfl
          | true =>
              have hl0 : labelKeyLtB (labelKey l0 kw) (labelKey (bestLabel kw l0 rest) kw) = false :=
                ih l0 l0 (List.mem_cons_self l0 rest)
              have := labelKeyLtB_total_trans hbk (labelKeyLtB_asymm hp)
              rw [this] at hl0
              cases hl0
        · exact ih l0 l hl2
      · rw [if_neg hp]
        rcases List.mem_cons.mp hl with rfl | hl2
        · exact ih l l (List.mem_cons_self l rest)
        · rcases List.mem_cons.mp hl2 with rfl | hl3
          · cases hbk : labelKeyLtB (labelKey l kw) (labelKey (bestLabel kw k0 rest) kw) with
            | false => rfl
            | true =>
                have hk0 : labelKeyLtB (labelKey k0 kw) (labelKey (bestLabel kw k0 rest) kw) = false :=
                  ih k0 k0 (List.mem_cons_self k0 rest)
                have := labelKeyLtB_total_trans hbk (eq_false_of_ne_true hp)
                rw [this] at hk0
                cases hk0
          · exact ih k0 l (List.mem_cons_of_mem k0 hl3)

theorem bestLabel_exact (kw : String) (k0 : JVal) (rest : List JVal)
    (h : ∃ l ∈ k0 :: rest, _normalize l = kw) :
    _normalize (bestLabel kw k0 rest) = kw := by
  obtain ⟨l, hl, hle⟩ := h
  have hmin := bestLabel_min kw k0 rest l hl
  have hkey : labelKey l kw = (false, 0) := by
    unfold labelKey
    rw [hle]
    simp [natDist]
  rw [hkey] at hmin
  rcases hK : labelKey (bestLabel kw k0 rest) kw with ⟨K1, K2⟩
  rw [hK] at hmin
  unfold labelKeyLtB at hmin
  cases K1 with
  | true => simp at hmin
  | false =>
      unfold labelKey at hK
      have h1 := congrArg Prod.fst hK
      simp only at h1
      rwa [bne_eq_false_iff_eq] at h1

theorem listLabel_best (pages : List JVal) (q : String) (g0 : JVal × List JVal)
    (grest : List (JVal × List JVal))
    (hq : ¬(normalizeStr q = ""))
    (hgs : collectGroups pages (normalizeStr q) = .ok (g0 :: grest)) :
    ∀ (limit : Nat) (r : Option JVal × List JVal × Nat),
      list_label_items_by_keyword pages q limit = .ok r →
      r.1 = some (bestLabel (normalizeStr q) g0.1 (grest.map Prod.fst)) := by
  intro limit r hr
  unfold list_label_items_by_keyword at hr
  rw [if_neg hq, hgs] at hr
  replace hr :
      (decorateSerials
          ((List.lookup (bestLabel (normalizeStr q) g0.1 (List.map Prod.fst grest))
            (g0 :: grest)).getD []) >>= fun dec =>
        Except.ok (some (bestLabel (normalizeStr q) g0.1 (List.map Prod.fst grest)),
          ((sortStable (fun a b => keyLtB a.1 b.1) dec).map (fun p => p.2)).take limit,
          ((sortStable (fun a b => keyLtB a.1 b.1) dec).map (fun p => p.2)).length)) =
        .ok r := hr
  cases hdec : decorateSerials
      ((List.lookup (bestLabel (normalizeStr q) g0.1 (List.map Prod.fst grest))
        (g0 :: grest)).getD []) with
  | error e =>
      rw [hdec] at hr
      exact absurd hr (by simp [Bind.bind, Except.bind])
  | ok dec =>
      rw [hdec] at hr
      replace hr :
          (Except.ok
            (some (bestLabel (normalizeStr q) g0.1 (List.map Prod.fst grest)),
              ((sortStable (fun a b => keyLtB a.1 b.1) dec).map (fun p => p.2)).take limit,
              ((sortStable (fun a b => keyLtB a.1 b.1) dec).map (fun p => p.2)).length) :
            Except Unit (Option JVal × List JVal × Nat)) = .ok r := hr
      injection hr with hr2
      rw [← hr2]

/-- Claim C4: category lookup.  A record is grouped into the query's
implied category iff its label is truthy and the normalized query and
normalized label contain one another (either direction); among the
grouped labels the selected one minimizes the sort key
`(label ≠ query after normalization, |len(label) − len(query)|)`, hence
is an exact normalized match whenever one exists, with ties broken by
the minimal length difference; and `list_label_items_by_keyword`
returns exactly that label. -/
theorem claim_C4_category_lookup (pages : List JVal) (q : String)
    (gs : List (JVal × List JVal))
    (hq : ¬(normalizeStr q = ""))
    (hgs : collectGroups pages (normalizeStr q) = .ok gs) :
    (∀ x, (∃ g ∈ gs, x ∈ g.2) ↔
      (x ∈ pages ∧ ∃ lv, _page_label x = .ok lv ∧ lv.truthy = true ∧
        (strIn (normalizeStr q) (_normalize lv) ||
          strIn (_normalize lv) (normalizeStr q)) = true)) ∧
    ∀ g0 grest, gs = g0 :: grest →
      (∀ l ∈ g0.1 :: grest.map Prod.fst,
        labelKeyLtB (labelKey l (normalizeStr q))
          (labelKey (bestLabel (normalizeStr q) g0.1 (grest.map Prod.fst))
            (normalizeStr q)) = false) ∧
      ((∃ l ∈ g0.1 :: grest.map Prod.fst, _normalize l = normalizeStr q) →
        _normalize (bestLabel (normalizeStr q) g0.1 (grest.map Prod.fst)) =
          normalizeStr q) ∧
      ∀ (limit : Nat) (r : Option JVal × List JVal × Nat),
        list_label_items_by_keyword pages q limit = .ok r →
        r.1 = some (bestLabel (normalizeStr q) g0.1 (grest.map Prod.fst)) := by
  constructor
  · intro x
    have h := collectAux_mem (normalizeStr q) pages [] gs hgs x
    simpa using h
  · rintro g0 grest rfl
    exact ⟨bestLabel_min _ _ _,
      fun h => bestLabel_exact _ _ _ h,
      listLabel_best pages q g0 grest hq hgs⟩

/-- Witness for claim C4: with a page labeled `3.客戶報價` and a page
labeled `報價`, the query `報價` groups both (label contains query in
one case, exact match in the other), the selected label is the exact
match `報價`, and `list_label_items_by_keyword` returns it. -/
theorem claim_C4_category_lookup_witness :
    (∃ g ∈ [(JVal.str "3.客戶報價", [wpgQ1]), (JVal.str "報價", [wpgQ2])], wpgQ1 ∈ g.2) ∧
    _normalize (bestLabel (normalizeStr "報價") (JVal.str "3.客戶報價") [JVal.str "報價"]) =
      normalizeStr "報價" ∧
    (some (JVal.str "報價"), ([wpgQ2] : List JVal), 1).1 =
      some (bestLabel (normalizeStr "報價") (JVal.str "3.客戶報價") [JVal.str "報價"]) := by
  have h := claim_C4_category_lookup [wpgQ1, wpgQ2] "報價"
    [(JVal.str "3.客戶報價", [wpgQ1]), (JVal.str "報價", [wpgQ2])] (by decide) (by decide)
  have h2 := h.2 (JVal.str "3.客戶報價", [wpgQ1]) [(JVal.str "報價", [wpgQ2])] rfl
  refine ⟨(h.1 wpgQ1).mpr ⟨by decide, .str "3.客戶報價", by decide, by decide, by decide⟩,
    h2.2.1 ⟨JVal.str "報價", by decide, by decide⟩,
    h2.2.2 20 (some (JVal.str "報價"), [wpgQ2], 1) (by decide)⟩
